import Mathlib

/-!
Verification of the Zarf package engine against its natural-language
specification.  The Go source is shallowly embedded: pure functions become
Lean functions over `String` / `List Char` / `Nat`, external collaborators
(filesystem, registries, Cosign, the image library push primitive) become
explicit parameters, and fallible code returns `Except`.  Machine integers
are modelled as `Nat` with explicit `% 2^32` where the Go code relies on
32-bit wraparound (CRC32, SHA-256).
-/

set_option maxRecDepth 1000000

/-! ## Byte-level string model

Go strings are byte sequences; `len` and hashing operate on UTF-8 bytes.
`strBytes` is the UTF-8 encoding of a Lean `String`, so that `goLen` and the
hash functions agree with Go on all inputs (for ASCII data the bytes are the
character codes). -/

/-- UTF-8 encoding of a single unicode code point. -/
def utf8BytesOfCode (c : Nat) : List Nat :=
  if c < 0x80 then [c]
  else if c < 0x800 then [0xC0 ||| c / 64, 0x80 ||| c % 64]
  else if c < 0x10000 then [0xE0 ||| c / 4096, 0x80 ||| (c / 64) % 64, 0x80 ||| c % 64]
  else [0xF0 ||| c / 262144, 0x80 ||| (c / 4096) % 64, 0x80 ||| (c / 64) % 64, 0x80 ||| c % 64]

/-- UTF-8 bytes of a string, as Go sees `[]byte(s)`. -/
def strBytes (s : String) : List Nat :=
  (s.data.map (fun c => utf8BytesOfCode c.toNat)).flatten

/-- Go `len(s)` (byte length). -/
def goLen (s : String) : Nat := (strBytes s).length

/-! ## CRC-32 (IEEE), as used by `helpers.GetCRCHash`

The Go helper is `crc32.Checksum([]byte(text), crc32.MakeTable(crc32.IEEE))`;
this is the standard reflected CRC-32 with polynomial `0xEDB88320`. -/

/-- One bit step of the reflected CRC-32 (IEEE polynomial). -/
def crc32Round (c : Nat) : Nat :=
  if c % 2 = 1 then (c / 2) ^^^ 0xEDB88320 else c / 2

/-- Fold one byte into a CRC-32 state. -/
def crc32Byte (crc b : Nat) : Nat :=
  crc32Round^[8] (crc ^^^ b)

/-- Model of `helpers.GetCRCHash` (CRC-32/IEEE of the UTF-8 bytes). -/
def GetCRCHash (text : String) : Nat :=
  ((strBytes text).foldl crc32Byte 0xFFFFFFFF) ^^^ 0xFFFFFFFF

/-! ## Decimal rendering

Model of Go `fmt.Sprintf("%d", n)` for non-negative integers; defined by
fuel-based recursion so it reduces in the kernel, and so we can prove that
every rendered character is a decimal digit. -/

/-- Digit character for a value below 10. -/
def digitChar (n : Nat) : Char := Char.ofNat (48 + n)

/-- Accumulating decimal renderer; `fuel` bounds the recursion depth. -/
def natDigitsAux : Nat → Nat → List Char → List Char
  | 0, _, acc => acc
  | fuel + 1, n, acc =>
    if n < 10 then digitChar n :: acc
    else natDigitsAux fuel (n / 10) (digitChar (n % 10) :: acc)

/-- Decimal rendering of a natural number (Go `%d`). -/
def natToString (n : Nat) : String :=
  String.mk (natDigitsAux (n + 1) n [])

/-! ## SHA-256, as used by `utils.GetSHA256OfFile`

A direct model of FIPS 180-4 over byte lists, with 32-bit words as `Nat`
values reduced mod `2^32`. -/

namespace SHA256

def add32 (a b : Nat) : Nat := (a + b) % 4294967296

def rotr (n x : Nat) : Nat := (x / 2 ^ n) ||| ((x % 2 ^ n) * 2 ^ (32 - n))

def shr (n x : Nat) : Nat := x / 2 ^ n

def bigSigma0 (x : Nat) : Nat := (rotr 2 x) ^^^ (rotr 13 x) ^^^ (rotr 22 x)
def bigSigma1 (x : Nat) : Nat := (rotr 6 x) ^^^ (rotr 11 x) ^^^ (rotr 25 x)
def smallSigma0 (x : Nat) : Nat := (rotr 7 x) ^^^ (rotr 18 x) ^^^ (shr 3 x)
def smallSigma1 (x : Nat) : Nat := (rotr 17 x) ^^^ (rotr 19 x) ^^^ (shr 10 x)

def chF (x y z : Nat) : Nat := (x &&& y) ^^^ ((x ^^^ 0xFFFFFFFF) &&& z)
def majF (x y z : Nat) : Nat := (x &&& y) ^^^ (x &&& z) ^^^ (y &&& z)

def K : List Nat :=
  [1116352408, 1899447441, 3049323471, 3921009573, 961987163, 1508970993,
   2453635748, 2870763221, 3624381080, 310598401, 607225278, 1426881987,
   1925078388, 2162078206, 2614888103, 3248222580, 3835390401, 4022224774,
   264347078, 604807628, 770255983, 1249150122, 1555081692, 1996064986,
   2554220882, 2821834349, 2952996808, 3210313671, 3336571891, 3584528711,
   113926993, 338241895, 666307205, 773529912, 1294757372, 1396182291,
   1695183700, 1986661051, 2177026350, 2456956037, 2730485921, 2820302411,
   3259730800, 3345764771, 3516065817, 3600352804, 4094571909, 275423344,
   430227734, 506948616, 659060556, 883997877, 958139571, 1322822218,
   1537002063, 1747873779, 1955562222, 2024104815, 2227730452, 2361852424,
   2428436474, 2756734187, 3204031479, 3329325298]

def H0 : List Nat :=
  [1779033703, 3144134277, 1013904242, 2773480762,
   1359893119, 2600822924, 528734635, 1541459225]

/-- Message padding for a byte message: `0x80`, zeros, then the bit length
as eight big-endian bytes. -/
def pad (msg : List Nat) : List Nat :=
  let bitLen := 8 * msg.length
  let padZeros := (55 + 64 - msg.length % 64) % 64
  msg ++ [0x80] ++ List.replicate padZeros 0 ++
    [(bitLen / 2 ^ 56) % 256, (bitLen / 2 ^ 48) % 256, (bitLen / 2 ^ 40) % 256, (bitLen / 2 ^ 32) % 256,
     (bitLen / 2 ^ 24) % 256, (bitLen / 2 ^ 16) % 256, (bitLen / 2 ^ 8) % 256, bitLen % 256]

/-- Big-endian 32-bit words of a byte list (length a multiple of 4). -/
def wordsOfBytes : List Nat → List Nat
  | b0 :: b1 :: b2 :: b3 :: rest => (b0 * 2 ^ 24 + b1 * 2 ^ 16 + b2 * 2 ^ 8 + b3) :: wordsOfBytes rest
  | _ => []

/-- Extend the schedule; `rw` holds the words produced so far in reverse. -/
def extendWords : Nat → List Nat → List Nat
  | 0, rw => rw.reverse
  | n + 1, rw =>
    let w2 := rw.getD 1 0
    let w7 := rw.getD 6 0
    let w15 := rw.getD 14 0
    let w16 := rw.getD 15 0
    let next := (smallSigma1 w2 + w7 + smallSigma0 w15 + w16) % 4294967296
    extendWords n (next :: rw)

structure Regs where
  a : Nat
  b : Nat
  c : Nat
  d : Nat
  e : Nat
  f : Nat
  g : Nat
  h : Nat

def round (r : Regs) (kw : Nat × Nat) : Regs :=
  let t1 := (r.h + bigSigma1 r.e + chF r.e r.f r.g + kw.1 + kw.2) % 4294967296
  let t2 := (bigSigma0 r.a + majF r.a r.b r.c) % 4294967296
  { a := (t1 + t2) % 4294967296, b := r.a, c := r.b, d := r.c,
    e := (r.d + t1) % 4294967296, f := r.e, g := r.f, h := r.g }

def compress (hs : List Nat) (block : List Nat) : List Nat :=
  let w := extendWords 48 (wordsOfBytes block).reverse
  let init : Regs :=
    { a := hs.getD 0 0, b := hs.getD 1 0, c := hs.getD 2 0, d := hs.getD 3 0,
      e := hs.getD 4 0, f := hs.getD 5 0, g := hs.getD 6 0, h := hs.getD 7 0 }
  let r := (K.zip w).foldl round init
  [add32 (hs.getD 0 0) r.a, add32 (hs.getD 1 0) r.b, add32 (hs.getD 2 0) r.c,
   add32 (hs.getD 3 0) r.d, add32 (hs.getD 4 0) r.e, add32 (hs.getD 5 0) r.f,
   add32 (hs.getD 6 0) r.g, add32 (hs.getD 7 0) r.h]

end SHA256

/-- Chunk a list into consecutive pieces of length `n` (fuel-based so it
reduces in the kernel); the last piece may be shorter. -/
def chunksOfAux (n : Nat) : Nat → List α → List (List α)
  | _, [] => []
  | 0, _ :: _ => []
  | fuel + 1, x :: xs => ((x :: xs).take n) :: chunksOfAux n fuel ((x :: xs).drop n)

/-- Chunk a list into consecutive pieces of at most `n` elements. -/
def chunksOf (n : Nat) (xs : List α) : List (List α) :=
  if n = 0 then [] else chunksOfAux n xs.length xs

namespace SHA256

def digestWords (msg : List Nat) : List Nat :=
  (chunksOf 64 (pad msg)).foldl compress H0

def hexDigit (n : Nat) : Char :=
  if n < 10 then Char.ofNat (48 + n) else Char.ofNat (87 + n)

def hexOfWord (w : Nat) : List Char :=
  [hexDigit ((w / 2 ^ 28) % 16), hexDigit ((w / 2 ^ 24) % 16), hexDigit ((w / 2 ^ 20) % 16),
   hexDigit ((w / 2 ^ 16) % 16), hexDigit ((w / 2 ^ 12) % 16), hexDigit ((w / 2 ^ 8) % 16),
   hexDigit ((w / 2 ^ 4) % 16), hexDigit (w % 16)]

end SHA256

/-- Lowercase hex SHA-256 digest of a byte list (Go
`fmt.Sprintf("%x", sha256.Sum256(data))`). -/
def sha256HexBytes (msg : List Nat) : String :=
  String.mk (((SHA256.digestWords msg).map SHA256.hexOfWord).flatten)

/-- Model of `utils.GetSHA256OfFile` applied to a file with the given bytes. -/
def sha256HexOfString (s : String) : String := sha256HexBytes (strBytes s)

/-! ## Image references (src/unnamed/part_014, package `transform`)

`ParseImageRef` delegates to `github.com/distribution/reference`
(`ParseAnyReference` / `ParseNormalizedNamed`).  That library is embedded
below over `List Char`: the docker-domain splitting heuristic, the
official-repository (`library/`) prefixing, tag/digest splitting, and the
component grammars.  The registry-domain grammar (`domainOK`), path
components, tags and digests follow the library regular expressions
exactly. -/

namespace DockerRef

/-- Lowercase letter or digit (the repository-path alphabet). -/
def isLowerAl (c : Char) : Bool := ('a' ≤ c && c ≤ 'z') || ('0' ≤ c && c ≤ '9')

/-- Go regexp word character `\w`. -/
def wordChar (c : Char) : Bool :=
  ('a' ≤ c && c ≤ 'z') || ('A' ≤ c && c ≤ 'Z') || ('0' ≤ c && c ≤ '9') || c = '_'

/-- Lowercase hexadecimal digit. -/
def isHexLower (c : Char) : Bool := ('a' ≤ c && c ≤ 'f') || ('0' ≤ c && c ≤ '9')

/-- ASCII uppercase letter. -/
def isUpperAscii (c : Char) : Bool := 'A' ≤ c && c ≤ 'Z'

/-- States of the path-component recognizer for
`[a-z0-9]+(?:(?:(?:[._]|__|[-]+)[a-z0-9]+)+)?`. -/
inductive CompState
  | start
  | run
  | afterDot
  | afterU1
  | afterUU
  | dash
  | reject
deriving DecidableEq

/-- Transition function of the path-component recognizer. -/
def compStep : CompState → Char → CompState
  | .start, c => if isLowerAl c then .run else .reject
  | .run, c =>
    if isLowerAl c then .run
    else if c = '.' then .afterDot
    else if c = '_' then .afterU1
    else if c = '-' then .dash
    else .reject
  | .afterDot, c => if isLowerAl c then .run else .reject
  | .afterU1, c => if isLowerAl c then .run else if c = '_' then .afterUU else .reject
  | .afterUU, c => if isLowerAl c then .run else .reject
  | .dash, c => if isLowerAl c then .run else if c = '-' then .dash else .reject
  | .reject, _ => .reject

/-- One path component: alphanumeric runs joined by `.`, `_`, `__` or dashes. -/
def pathComponentOK (xs : List Char) : Bool :=
  (xs.foldl compStep .start) = .run

/-- Split a char list at every occurrence of `c`. -/
def splitCh (c : Char) : List Char → List (List Char)
  | [] => [[]]
  | x :: xs =>
    if x = c then [] :: splitCh c xs
    else
      match splitCh c xs with
      | [] => [[x]]
      | y :: ys => (x :: y) :: ys

/-- Repository path: slash-separated valid components. -/
def pathOK (xs : List Char) : Bool :=
  !xs.isEmpty && (splitCh '/' xs).all pathComponentOK

/-- Tag grammar `[\w][\w.-]{0,127}`. -/
def tagOK : List Char → Bool
  | [] => false
  | c :: rest =>
    wordChar c && rest.all (fun d => wordChar d || d = '.' || d = '-') && rest.length + 1 ≤ 128

/-- Digest grammar for the registered algorithms of `go-digest`
(`sha256`, `sha384`, `sha512` with the exact hex length). -/
def digestOK (xs : List Char) : Bool :=
  ("sha256:".data.isPrefixOf xs && (xs.drop 7).length = 64 && (xs.drop 7).all isHexLower) ||
  ("sha384:".data.isPrefixOf xs && (xs.drop 7).length = 96 && (xs.drop 7).all isHexLower) ||
  ("sha512:".data.isPrefixOf xs && (xs.drop 7).length = 128 && (xs.drop 7).all isHexLower)

/-- A bare 64-char lowercase hex identifier
(`anchoredIdentifierRegexp`). -/
def isHex64 (xs : List Char) : Bool := xs.length = 64 && xs.all isHexLower

/-- Split at the first occurrence of `c`, if any. -/
def splitFirstCh (c : Char) : List Char → Option (List Char × List Char)
  | [] => none
  | x :: xs =>
    if x = c then some ([], xs)
    else (splitFirstCh c xs).map (fun p => (x :: p.1, p.2))

/-- ASCII letter or digit (the registry host-name alphabet). -/
def hostAlnum (c : Char) : Bool :=
  ('a' ≤ c && c ≤ 'z') || ('A' ≤ c && c ≤ 'Z') || ('0' ≤ c && c ≤ '9')

/-- ASCII decimal digit. -/
def isDigitCh (c : Char) : Bool := '0' ≤ c && c ≤ '9'

/-- One domain-name component, library regexp
`(?:[a-zA-Z0-9]|[a-zA-Z0-9][a-zA-Z0-9-]*[a-zA-Z0-9])`: letters, digits and
dashes, beginning and ending with a letter or digit. -/
def domainCompOK (xs : List Char) : Bool :=
  !xs.isEmpty && xs.all (fun c => hostAlnum c || c = '-') &&
    xs.head?.all hostAlnum && xs.getLast?.all hostAlnum

/-- A bracketed IPv6 literal, library regexp `\[(?:[a-fA-F0-9:]+)\]`. -/
def ipv6OK (xs : List Char) : Bool :=
  match xs with
  | '[' :: rest =>
    rest.getLast? == some ']' && !rest.dropLast.isEmpty &&
      rest.dropLast.all (fun c =>
        ('a' ≤ c && c ≤ 'f') || ('A' ≤ c && c ≤ 'F') || isDigitCh c || c = ':')
  | _ => false

/-- The registry host: a dot-separated domain name or an IPv6 literal. -/
def hostOK (xs : List Char) : Bool :=
  (splitCh '.' xs).all domainCompOK || ipv6OK xs

/-- Split at the last occurrence of `c`, if any. -/
def splitLastCh (c : Char) (xs : List Char) : Option (List Char × List Char) :=
  (splitFirstCh c xs.reverse).map (fun p => (p.2.reverse, p.1.reverse))

/-- Registry domain with optional port, library regexp `host(?::[0-9]+)?`:
either the whole string is a host, or everything after the last colon is a
non-empty run of digits and everything before it is a host (the port
separator is the last colon, since neither a domain name nor the digits of
a port contain one, while an IPv6 host may). -/
def domainOK (xs : List Char) : Bool :=
  hostOK xs ||
    (match splitLastCh ':' xs with
     | some (h, p) => hostOK h && !p.isEmpty && p.all isDigitCh
     | none => false)

def defaultDomain : List Char := "docker.io".data
def legacyDefaultDomain : List Char := "index.docker.io".data
def localhostName : List Char := "localhost".data
def officialRepoName : List Char := "library".data

/-- Model of `splitDockerDomain`: decide whether the first path component is
a registry host, normalize the legacy default domain, and prefix `library/`
for single-component official images. -/
def splitDockerDomain (name : List Char) : List Char × List Char :=
  let (domain, remainder) :=
    match splitFirstCh '/' name with
    | none => (defaultDomain, name)
    | some (first, rest) =>
      if !(first.contains '.') && !(first.contains ':') && first ≠ localhostName &&
          first.all (fun c => !isUpperAscii c) then
        (defaultDomain, name)
      else (first, rest)
  let domain := if domain = legacyDefaultDomain then defaultDomain else domain
  let remainder :=
    if domain = defaultDomain && !(remainder.contains '/') then
      officialRepoName ++ '/' :: remainder
    else remainder
  (domain, remainder)

/-- Split a trailing `@digest`, if any (digests follow the first `@`). -/
def splitDigest (xs : List Char) : List Char × Option (List Char) :=
  match splitFirstCh '@' xs with
  | none => (xs, none)
  | some (pre, post) => (pre, some post)

/-- Split a trailing `:tag`: the colon must occur after the last slash. -/
def splitTag (xs : List Char) : List Char × Option (List Char) :=
  match xs.reverse.drop (xs.reverse.takeWhile (fun c => c ≠ ':' && c ≠ '/')).length with
  | ':' :: restRev =>
    (restRev.reverse, some ((xs.reverse.takeWhile (fun c => c ≠ ':' && c ≠ '/')).reverse))
  | _ => (xs, none)

/-- Model of `ParseNormalizedNamed` followed by `Parse`: returns
`(domain, path, optional tag, optional digest)` or an error. -/
def parseNormalizedParts (s : List Char) :
    Except String (List Char × List Char × Option (List Char) × Option (List Char)) :=
  if isHex64 s then
    .error "invalid repository name, cannot specify 64-byte hexadecimal strings"
  else
    let (domain, remainder) := splitDockerDomain s
    let remote :=
      match splitFirstCh ':' remainder with
      | some p => p.1
      | none => remainder
    if remote.any isUpperAscii then
      .error "invalid reference format: repository name must be lowercase"
    else
      let (preDigest, odig) := splitDigest remainder
      let (base, otag) := splitTag preDigest
      if !domainOK domain then .error "invalid reference format"
      else if !pathOK base then .error "invalid reference format"
      else if (domain ++ '/' :: base).length > 255 then
        .error "repository name must not be more than 255 characters"
      else if !(match otag with | some tg => tagOK tg | none => true) then
        .error "invalid reference format"
      else if !(match odig with | some d => digestOK d | none => true) then
        .error "invalid checksum digest format"
      else .ok (domain, base, otag, odig)

end DockerRef

/-- Model of `transform.Image` (src/unnamed/part_014). -/
structure Image where
  host : String
  name : String
  path : String
  tag : String
  digest : String
  reference : String
  tagOrDigest : String
deriving DecidableEq

/-- Model of `helpers.OCIURLPrefix`. -/
def ociURLPre : String := "oci://"

/-- Model of `transform.ParseImageRef` (src/unnamed/part_014): strip the
`oci://` scheme, reject digest-only references (they are not `Named`),
normalize via the reference library, then read off the tag/digest views and
default the tag to `latest`. -/
def ParseImageRef (srcReference : String) : Except String Image :=
  let src :=
    if ociURLPre.data.isPrefixOf srcReference.data then
      String.mk (srcReference.data.drop 6)
    else srcReference
  if DockerRef.isHex64 src.data then .error ("unable to parse image name from " ++ src)
  else if DockerRef.digestOK src.data then .error ("unable to parse image name from " ++ src)
  else
    match DockerRef.parseNormalizedParts src.data with
    | .error e => .error e
    | .ok (domain, base, otag, odig) =>
      let name := String.mk domain ++ "/" ++ String.mk base
      let out : Image :=
        { host := String.mk domain, name := name, path := String.mk base,
          tag := "", digest := "", reference := name, tagOrDigest := "" }
      let out :=
        match otag, odig with
        | some tg, some d =>
          { out with tag := String.mk tg, digest := String.mk d,
                     tagOrDigest := "@" ++ String.mk d,
                     reference := name ++ ":" ++ String.mk tg ++ "@" ++ String.mk d }
        | some tg, none =>
          { out with tag := String.mk tg, tagOrDigest := ":" ++ String.mk tg,
                     reference := name ++ ":" ++ String.mk tg }
        | none, some d =>
          { out with digest := String.mk d, tagOrDigest := "@" ++ String.mk d,
                     reference := name ++ "@" ++ String.mk d }
        | none, none =>
          { out with tag := "latest", tagOrDigest := ":latest", reference := name ++ ":latest" }
      .ok out

/-- Model of `transform.ImageTransformHost` (src/unnamed/part_014). -/
def ImageTransformHost (targetHost srcReference : String) : Except String String :=
  match ParseImageRef srcReference with
  | .error e => .error e
  | .ok image =>
    if image.host.data.isPrefixOf targetHost.data then .ok srcReference
    else
      let checksum := GetCRCHash image.name
      if image.digest ≠ "" then
        .ok (targetHost ++ "/" ++ image.path ++ "@" ++ image.digest)
      else
        .ok (targetHost ++ "/" ++ image.path ++ ":" ++ image.tag ++ "-zarf-" ++ natToString checksum)

/-- Model of `transform.ImageTransformHostWithoutChecksum`
(src/unnamed/part_014). -/
def ImageTransformHostWithoutChecksum (targetHost srcReference : String) : Except String String :=
  match ParseImageRef srcReference with
  | .error e => .error e
  | .ok image =>
    if image.host.data.isPrefixOf targetHost.data then .ok srcReference
    else .ok (targetHost ++ "/" ++ image.path ++ image.tagOrDigest)

/-- Decidable equality for `Except`, so claims about fallible functions can
be settled by `decide` on concrete inputs. -/
instance {e : Type} {a : Type} [DecidableEq e] [DecidableEq a] : DecidableEq (Except e a) := fun x y =>
  match x, y with
  | .error u, .error v => if h : u = v then isTrue (by rw [h]) else isFalse (by simp [h])
  | .ok u, .ok v => if h : u = v then isTrue (by rw [h]) else isFalse (by simp [h])
  | .error _, .ok _ => isFalse (by simp)
  | .ok _, .error _ => isFalse (by simp)

/-! ## Claim C1: mirror rewrite of image references -/

/-- Helper: any successfully parsed image has `name = host ++ "/" ++ path`. -/
theorem parseImageRef_name {r : String} {img : Image}
    (h : ParseImageRef r = .ok img) : img.name = img.host ++ "/" ++ img.path := by
  simp only [ParseImageRef] at h
  split at h <;>
  · split at h
    · exact absurd h (by simp)
    · split at h
      · exact absurd h (by simp)
      · split at h
        · exact absurd h (by simp)
        · split at h <;>
            (simp only [Except.ok.injEq] at h; subst h; rfl)

/-- C1: for an image reference whose host is not already a suffix-compatible
mirror host, a tagged reference maps to
`<targetHost>/<path>:<tag>-zarf-<crc32(name)>` and a digest reference maps to
`<targetHost>/<path>@<digest>`; the hashed name is `host ++ "/" ++ path`.
This is the claim amended by the already-transformed guard exhibited in
`imageTransformHost_claim_cex`. -/
theorem imageTransformHost_spec (targetHost srcReference : String) (img : Image)
    (hparse : ParseImageRef srcReference = .ok img)
    (hhost : img.host.data.isPrefixOf targetHost.data = false) :
    img.name = img.host ++ "/" ++ img.path ∧
    (img.digest = "" →
      ImageTransformHost targetHost srcReference =
        .ok (targetHost ++ "/" ++ img.path ++ ":" ++ img.tag ++ "-zarf-" ++
          natToString (GetCRCHash img.name))) ∧
    (img.digest ≠ "" →
      ImageTransformHost targetHost srcReference =
        .ok (targetHost ++ "/" ++ img.path ++ "@" ++ img.digest)) := by
  refine ⟨parseImageRef_name hparse, ?_, ?_⟩ <;>
  · intro hdig
    unfold ImageTransformHost
    rw [hparse]
    simp [hhost, hdig]

/-- C1 counterexample: an image reference whose host is already a prefix of
the target host is returned unchanged, not rewritten to the claimed
`<targetHost>/<path>:<tag>-zarf-<crc32>` shape. -/
theorem imageTransformHost_claim_cex :
    ImageTransformHost "127.0.0.1:31999" "127.0.0.1:31999/library/nginx:1.25" =
      .ok "127.0.0.1:31999/library/nginx:1.25" ∧
    "127.0.0.1:31999/library/nginx:1.25" ≠
      "127.0.0.1:31999" ++ "/" ++ "library/nginx" ++ ":" ++ "1.25" ++ "-zarf-" ++
        natToString (GetCRCHash "127.0.0.1:31999/library/nginx") := by
  constructor
  · decide
  · decide

/-- C1 witness: the spec examples, instantiating `imageTransformHost_spec` at
`docker.io/library/nginx:1.25` (tag case) and at a digest reference. -/
theorem imageTransformHost_spec_witness :
    ImageTransformHost "127.0.0.1:31999" "docker.io/library/nginx:1.25" =
      .ok "127.0.0.1:31999/library/nginx:1.25-zarf-3793515731" ∧
    ImageTransformHost "127.0.0.1:31999"
        "nginx@sha256:aaaaaaaaaaaaaaaaaaaaaaaaaaaaaaaaaaaaaaaaaaaaaaaaaaaaaaaaaaaaaaaa" =
      .ok "127.0.0.1:31999/library/nginx@sha256:aaaaaaaaaaaaaaaaaaaaaaaaaaaaaaaaaaaaaaaaaaaaaaaaaaaaaaaaaaaaaaaa" := by
  constructor
  · have h := (imageTransformHost_spec "127.0.0.1:31999" "docker.io/library/nginx:1.25"
      { host := "docker.io", name := "docker.io/library/nginx", path := "library/nginx",
        tag := "1.25", digest := "", reference := "docker.io/library/nginx:1.25",
        tagOrDigest := ":1.25" } (by decide) (by decide)).2.1 (by decide)
    exact h.trans (by decide)
  · have h := (imageTransformHost_spec "127.0.0.1:31999"
      "nginx@sha256:aaaaaaaaaaaaaaaaaaaaaaaaaaaaaaaaaaaaaaaaaaaaaaaaaaaaaaaaaaaaaaaa"
      { host := "docker.io", name := "docker.io/library/nginx", path := "library/nginx",
        tag := "", digest := "sha256:aaaaaaaaaaaaaaaaaaaaaaaaaaaaaaaaaaaaaaaaaaaaaaaaaaaaaaaaaaaaaaaa",
        reference := "docker.io/library/nginx@sha256:aaaaaaaaaaaaaaaaaaaaaaaaaaaaaaaaaaaaaaaaaaaaaaaaaaaaaaaaaaaaaaaa",
        tagOrDigest := "@sha256:aaaaaaaaaaaaaaaaaaaaaaaaaaaaaaaaaaaaaaaaaaaaaaaaaaaaaaaaaaaaaaaa" }
      (by decide) (by decide)).2.2 (by decide)
    exact h.trans (by decide)

/-! ## Claim C9: idempotence of the host transform

Supporting lemmas about the reference-splitting primitives, used to
re-parse the output `targetHost/<path>:<tag>-zarf-<crc>` of a transform. -/

namespace DockerRef

theorem splitFirstCh_eq_none {c : Char} {xs : List Char} (h : c ∉ xs) :
    splitFirstCh c xs = none := by
  induction xs with
  | nil => rfl
  | cons a l ih =>
    simp only [List.mem_cons, not_or] at h
    simp [splitFirstCh, Ne.symm h.1, ih h.2]

theorem splitFirstCh_eq_some {c : Char} {xs a b : List Char}
    (h : splitFirstCh c xs = some (a, b)) : xs = a ++ c :: b ∧ c ∉ a := by
  induction xs generalizing a b with
  | nil => simp [splitFirstCh] at h
  | cons x l ih =>
    by_cases hx : x = c
    · simp only [splitFirstCh, if_pos hx, Option.some.injEq, Prod.mk.injEq] at h
      obtain ⟨h1, h2⟩ := h
      subst h1
      subst h2
      simp [hx]
    · rw [splitFirstCh, if_neg hx] at h
      cases hsc : splitFirstCh c l with
      | none => rw [hsc] at h; simp at h
      | some q =>
        obtain ⟨q1, q2⟩ := q
        rw [hsc] at h
        simp only [Option.map, Option.some.injEq, Prod.mk.injEq] at h
        obtain ⟨h1, h2⟩ := h
        obtain ⟨hl, hnc⟩ := ih hsc
        subst h2
        rw [← h1]
        refine ⟨by simp [hl], ?_⟩
        simp only [List.mem_cons, not_or]
        exact ⟨fun hcx => hx hcx.symm, hnc⟩

theorem splitFirstCh_append_left {c : Char} {xs : List Char} (ys : List Char) (h : c ∉ xs) :
    splitFirstCh c (xs ++ ys) =
      (splitFirstCh c ys).map (fun q => (xs ++ q.1, q.2)) := by
  induction xs with
  | nil => cases hsc : splitFirstCh c ys <;> simp [hsc]
  | cons a l ih =>
    simp only [List.mem_cons, not_or] at h
    rw [List.cons_append, splitFirstCh, if_neg (Ne.symm h.1), ih h.2]
    cases splitFirstCh c ys <;> simp

theorem splitFirstCh_sep {c : Char} {xs : List Char} (ys : List Char) (h : c ∉ xs) :
    splitFirstCh c (xs ++ c :: ys) = some (xs, ys) := by
  rw [splitFirstCh_append_left (c :: ys) h]
  simp [splitFirstCh]

/-- Characters accepted inside a path component. -/
def compChar (c : Char) : Bool := isLowerAl c || c = '.' || c = '_' || c = '-'

theorem foldl_compStep_reject (xs : List Char) :
    xs.foldl compStep .reject = .reject := by
  induction xs with
  | nil => rfl
  | cons a l ih => simpa [compStep] using ih

theorem compStep_reject_of_not_compChar {c : Char} (st : CompState) (h : compChar c = false) :
    compStep st c = .reject := by
  simp only [compChar, Bool.or_eq_false_iff] at h
  obtain ⟨⟨⟨h1, h2⟩, h3⟩, h4⟩ := h
  cases st <;>
    simp [compStep, h1, h2, h3, h4, decide_eq_false_iff_not.mp h2,
      decide_eq_false_iff_not.mp h3, decide_eq_false_iff_not.mp h4]

theorem run_chars {xs : List Char} {st : CompState}
    (h : xs.foldl compStep st = .run) : ∀ c ∈ xs, compChar c = true := by
  induction xs generalizing st with
  | nil => simp
  | cons a l ih =>
    intro c hc
    rcases List.mem_cons.mp hc with rfl | hmem
    · by_contra hbad
      rw [List.foldl_cons, compStep_reject_of_not_compChar st (Bool.not_eq_true _ ▸ hbad),
        foldl_compStep_reject] at h
      exact absurd h (by simp)
    · exact ih (by simpa using h) c hmem

theorem pathComponentOK_chars {xs : List Char} (h : pathComponentOK xs = true) :
    ∀ c ∈ xs, compChar c = true := by
  apply run_chars
  unfold pathComponentOK at h
  exact of_decide_eq_true h

theorem splitCh_ne_nil (c : Char) (xs : List Char) : splitCh c xs ≠ [] := by
  cases xs with
  | nil => simp [splitCh]
  | cons a l =>
    simp only [splitCh]
    split
    · simp
    · split <;> simp

theorem mem_comp_of_mem_splitCh {c x : Char} {xs : List Char} (hx : x ∈ xs) :
    x = c ∨ ∃ ys ∈ splitCh c xs, x ∈ ys := by
  induction xs with
  | nil => simp at hx
  | cons hd l ih =>
    by_cases hac : hd = c
    · rcases List.mem_cons.mp hx with hxa | hmem
      · exact Or.inl (hxa.trans hac)
      · rcases ih hmem with h | ⟨ys, hys, hxys⟩
        · exact Or.inl h
        · exact Or.inr ⟨ys, by simp [splitCh, hac, hys], hxys⟩
    · obtain ⟨y, ys, hsplit⟩ : ∃ y ys, splitCh c l = y :: ys :=
        match hsc : splitCh c l with
        | [] => absurd hsc (splitCh_ne_nil c l)
        | y :: ys => ⟨y, ys, rfl⟩
      have hres : splitCh c (hd :: l) = (hd :: y) :: ys := by
        simp [splitCh, hac, hsplit]
      rcases List.mem_cons.mp hx with hxa | hmem
      · exact Or.inr ⟨hd :: y, by simp [hres], by simp [hxa]⟩
      · rcases ih hmem with h | ⟨zs, hzs, hxzs⟩
        · exact Or.inl h
        · rw [hsplit] at hzs
          rcases List.mem_cons.mp hzs with hzy | hzmem
          · exact Or.inr ⟨hd :: y, by simp [hres], by simp [hzy ▸ hxzs]⟩
          · exact Or.inr ⟨zs, by simp [hres, hzmem], hxzs⟩

/-- Characters of a valid repository path are component characters or `/`. -/
theorem pathOK_chars {p : List Char} (h : pathOK p = true) :
    ∀ x ∈ p, (compChar x || (x = '/')) = true := by
  intro x hx
  simp only [pathOK, Bool.and_eq_true, List.all_eq_true] at h
  rcases mem_comp_of_mem_splitCh (c := '/') hx with rfl | ⟨ys, hys, hxys⟩
  · simp
  · simp [pathComponentOK_chars (h.2 ys hys) x hxys]

theorem pathOK_not_mem {p : List Char} (h : pathOK p = true) {c : Char}
    (hc : compChar c = false) (hs : c ≠ '/') : c ∉ p := by
  intro hmem
  have := pathOK_chars h c hmem
  simp [hc, hs] at this

theorem pathOK_head {p : List Char} (h : pathOK p = true) :
    ∃ c cs, p = c :: cs ∧ isLowerAl c = true := by
  cases p with
  | nil => simp [pathOK] at h
  | cons a l =>
    refine ⟨a, l, rfl, ?_⟩
    simp only [pathOK, Bool.and_eq_true, List.all_eq_true] at h
    by_cases hac : a = '/'
    · have hnil : ([] : List Char) ∈ splitCh '/' (a :: l) := by
        simp [splitCh, hac]
      exact absurd (h.2 [] hnil) (by decide)
    · obtain ⟨y, ys, hsplit⟩ : ∃ y ys, splitCh '/' l = y :: ys :=
        match hsc : splitCh '/' l with
        | [] => absurd hsc (splitCh_ne_nil '/' l)
        | y :: ys => ⟨y, ys, rfl⟩
      have hmem : (a :: y) ∈ splitCh '/' (a :: l) := by
        simp [splitCh, hac, hsplit]
      have hok := h.2 _ hmem
      unfold pathComponentOK at hok
      have hok2 := of_decide_eq_true hok
      by_contra hbad
      have hLA : isLowerAl a = false := by
        cases hv : isLowerAl a
        · rfl
        · exact absurd hv hbad
      have hstep : compStep CompState.start a = CompState.reject := by
        simp [compStep, hLA]
      rw [List.foldl_cons, hstep, foldl_compStep_reject] at hok2
      exact absurd hok2 (by simp)

end DockerRef

namespace DockerRef

theorem splitFirstCh_isSome_of_mem {c : Char} {xs : List Char} (h : c ∈ xs) :
    (splitFirstCh c xs).isSome = true := by
  induction xs with
  | nil => simp at h
  | cons a l ih =>
    by_cases hac : a = c
    · simp [splitFirstCh, hac]
    · rcases List.mem_cons.mp h with hc | hmem
      · exact absurd hc.symm hac
      · simp only [splitFirstCh, if_neg hac]
        cases hsc : splitFirstCh c l with
        | none => rw [hsc] at ih; simp [ih hmem] at *
        | some q => simp

/-- Characters allowed in a tag. -/
def tagChar (c : Char) : Bool := wordChar c || c = '.' || c = '-'

theorem tagOK_chars {t : List Char} (h : tagOK t = true) :
    ∀ c ∈ t, tagChar c = true := by
  cases t with
  | nil => simp [tagOK] at h
  | cons a l =>
    simp only [tagOK, Bool.and_eq_true, List.all_eq_true] at h
    intro c hc
    rcases List.mem_cons.mp hc with rfl | hmem
    · simp [tagChar, h.1.1]
    · exact h.1.2 c hmem

/-- Characters occurring in a valid digest. -/
def digestChar (c : Char) : Bool := isHexLower c || c = 's' || c = 'h' || c = ':'

theorem digestOK_chars {d : List Char} (h : digestOK d = true) :
    (∀ c ∈ d, digestChar c = true) ∧ ':' ∈ d := by
  simp only [digestOK, Bool.or_eq_true, Bool.and_eq_true, List.all_eq_true] at h
  have main : ∀ (pre : List Char), pre.isPrefixOf d = true →
      (∀ c ∈ pre, digestChar c = true) → ':' ∈ pre →
      (∀ c ∈ d.drop pre.length, isHexLower c = true) →
      (∀ c ∈ d, digestChar c = true) ∧ ':' ∈ d := by
    intro pre hpre hpc hcol hhex
    obtain ⟨tl, htl⟩ := List.isPrefixOf_iff_prefix.mp hpre
    constructor
    · intro c hc
      rw [← htl] at hc
      rcases List.mem_append.mp hc with h1 | h2
      · exact hpc c h1
      · have : c ∈ d.drop pre.length := by
          rw [← htl, List.drop_left]
          exact h2
        have := hhex c this
        simp [digestChar, this]
    · rw [← htl]
      exact List.mem_append.mpr (Or.inl hcol)
  rcases h with (⟨⟨hp, -⟩, hh⟩ | ⟨⟨hp, -⟩, hh⟩) | ⟨⟨hp, -⟩, hh⟩
  · exact main _ hp (by decide) (by decide) hh
  · exact main _ hp (by decide) (by decide) hh
  · exact main _ hp (by decide) (by decide) hh

theorem digestOK_ne_nil {d : List Char} (h : digestOK d = true) : d ≠ [] := by
  intro hd
  subst hd
  simp [digestOK] at h

theorem dropWhile_head_false {p : α → Bool} :
    ∀ {xs : List α} {c : α} {rest : List α}, xs.dropWhile p = c :: rest → p c = false := by
  intro xs
  induction xs with
  | nil => intro c rest h; simp [List.dropWhile] at h
  | cons a l ih =>
    intro c rest h
    rw [List.dropWhile_cons] at h
    split at h
    · exact ih h
    · rename_i hpa
      injection h with h1 h2
      subst h1
      cases hv : p a
      · rfl
      · exact absurd hv hpa

theorem takeWhile_all_append {p : α → Bool} {xs : List α} (ys : List α)
    (h : ∀ x ∈ xs, p x = true) :
    (xs ++ ys).takeWhile p = xs ++ ys.takeWhile p := by
  induction xs with
  | nil => simp
  | cons a l ih =>
    rw [List.cons_append, List.takeWhile_cons, if_pos (h a (by simp)), ih]
    · rfl
    · intro x hx
      exact h x (by simp [hx])

/-- Helper: dropping the length of the matched `takeWhile` gives `dropWhile`. -/
theorem drop_length_takeWhile (pred : α → Bool) (xs : List α) :
    xs.drop (xs.takeWhile pred).length = xs.dropWhile pred := by
  nth_rewrite 2 [← List.takeWhile_append_dropWhile pred xs]
  rw [List.drop_left]

/-- Computation of `splitTag` on a path followed by a tag. -/
theorem splitTag_sep {p tg : List Char}
    (hp : '/' ∉ tg) (hc : ':' ∉ tg) :
    splitTag (p ++ ':' :: tg) = (p, some tg) := by
  unfold splitTag
  have hrev : (p ++ ':' :: tg).reverse = tg.reverse ++ ':' :: p.reverse := by
    simp
  have hall : ∀ c ∈ tg.reverse, (decide ¬c = ':' && decide ¬c = '/') = true := by
    intro c hcm
    rw [List.mem_reverse] at hcm
    have h1 : c ≠ ':' := fun hh => hc (hh ▸ hcm)
    have h2 : c ≠ '/' := fun hh => hp (hh ▸ hcm)
    simp [h1, h2]
  have hnil : List.takeWhile (fun c => decide ¬c = ':' && decide ¬c = '/') (':' :: p.reverse) =
      ([] : List Char) := by
    rw [List.takeWhile_cons]
    simp
  rw [hrev, takeWhile_all_append _ hall, hnil, List.append_nil, List.drop_left]
  simp

/-- Computation of `splitTag` when the input contains no colon at all. -/
theorem splitTag_none {p : List Char} (hc : ':' ∉ p) :
    splitTag p = (p, none) := by
  unfold splitTag
  rw [drop_length_takeWhile]
  cases hres : p.reverse.dropWhile (fun c => decide ¬c = ':' && decide ¬c = '/') with
  | nil => rfl
  | cons c rest =>
    have hcm : c ∈ p := by
      have hc1 : c ∈ p.reverse.dropWhile (fun c => decide ¬c = ':' && decide ¬c = '/') := by
        rw [hres]
        exact List.mem_cons_self _ _
      have hc2 := (List.dropWhile_sublist _).mem hc1
      rwa [List.mem_reverse] at hc2
    have hcne : c ≠ ':' := fun hh => hc (hh ▸ hcm)
    split
    · rename_i heq
      injection heq with h1 h2
      exact absurd h1 hcne
    · rfl

end DockerRef

namespace DockerRef

theorem isHex64_false_of_slash {xs : List Char} (h : '/' ∈ xs) : isHex64 xs = false := by
  cases hv : isHex64 xs
  · rfl
  · simp only [isHex64, Bool.and_eq_true, List.all_eq_true] at hv
    exact absurd (hv.2 '/' h) (by decide)

theorem digestOK_false_of_slash {xs : List Char} (h : '/' ∈ xs) : digestOK xs = false := by
  cases hv : digestOK xs
  · rfl
  · exact absurd ((digestOK_chars hv).1 '/' h) (by decide)

theorem compChar_not_upper {c : Char} (h : compChar c = true) : isUpperAscii c = false := by
  cases hu : isUpperAscii c
  · rfl
  · exfalso
    simp only [isUpperAscii, Bool.and_eq_true, decide_eq_true_eq] at hu
    simp only [compChar, isLowerAl, Bool.or_eq_true, Bool.and_eq_true, decide_eq_true_eq] at h
    rcases h with (((⟨h1, h2⟩ | ⟨h1, h2⟩) | h3) | h4) | h5
    · exact absurd (le_trans h1 hu.2) (by decide)
    · exact absurd (le_trans hu.1 h2) (by decide)
    · subst h3; exact absurd hu (by decide)
    · subst h4; exact absurd hu (by decide)
    · subst h5; exact absurd hu (by decide)

theorem digestChar_not_upper {c : Char} (h : digestChar c = true) : isUpperAscii c = false := by
  cases hu : isUpperAscii c
  · rfl
  · exfalso
    simp only [isUpperAscii, Bool.and_eq_true, decide_eq_true_eq] at hu
    simp only [digestChar, isHexLower, Bool.or_eq_true, Bool.and_eq_true, decide_eq_true_eq] at h
    rcases h with (((⟨h1, h2⟩ | ⟨h1, h2⟩) | h3) | h4) | h5
    · exact absurd (le_trans h1 hu.2) (by decide)
    · exact absurd (le_trans hu.1 h2) (by decide)
    · subst h3; exact absurd hu (by decide)
    · subst h4; exact absurd hu (by decide)
    · subst h5; exact absurd hu (by decide)

theorem pathOK_no_upper {p : List Char} (h : pathOK p = true) :
    p.any isUpperAscii = false := by
  rw [List.any_eq_false]
  intro c hc
  have hpc := pathOK_chars h c hc
  rcases Bool.or_eq_true _ _ |>.mp hpc with h1 | h2
  · simp [compChar_not_upper h1]
  · have : c = '/' := by simpa using h2
    subst this
    decide

/-- The `oci://` scheme never prefixes `domain ++ "/" ++ remainder` when the
domain is slash-free and the remainder starts with a path character. -/
theorem ociPre_false {t rest : List Char} (ht0 : '/' ∉ t)
    (hhd : ∀ c, rest.head? = some c → isLowerAl c = true) :
    ociURLPre.data.isPrefixOf (t ++ '/' :: rest) = false := by
  have hoci : ociURLPre.data = ['o', 'c', 'i', ':', '/', '/'] := rfl
  cases hv : ociURLPre.data.isPrefixOf (t ++ '/' :: rest)
  · rfl
  · exfalso
    have hpre := List.isPrefixOf_iff_prefix.mp hv
    have heq : ociURLPre.data = (t ++ '/' :: rest).take 6 :=
      List.prefix_iff_eq_take.mp hpre
    rw [List.take_append_eq_append_take] at heq
    by_cases hlen : 6 ≤ t.length
    · have h60 : 6 - t.length = 0 := Nat.sub_eq_zero_of_le hlen
      rw [h60, List.take_zero, List.append_nil] at heq
      have hmem : '/' ∈ t.take 6 := by
        rw [← heq, hoci]
        decide
      exact ht0 (List.mem_of_mem_take hmem)
    · push_neg at hlen
      have htt : t.take 6 = t := List.take_of_length_le (by omega)
      rw [htt] at heq
      have hkt : t = ociURLPre.data.take t.length := by
        have hh := congrArg (List.take t.length) heq
        rw [List.take_left] at hh
        exact hh.symm
      have hdrop : ociURLPre.data.drop t.length = ('/' :: rest).take (6 - t.length) := by
        have hh := congrArg (List.drop t.length) heq
        rwa [List.drop_left] at hh
      rw [hoci] at hdrop
      interval_cases hk : t.length
      · simp at hdrop
      · simp at hdrop
      · simp at hdrop
      · simp at hdrop
      · cases rest with
        | nil => simp at hdrop
        | cons r rs =>
          have hr : r = '/' := by
            have hh := hdrop
            simp at hh
            exact hh.symm
          have hlow := hhd r rfl
          rw [hr] at hlow
          exact absurd hlow (by decide)
      · have hmem : '/' ∈ t := by
          rw [hkt, hoci]
          decide
        exact ht0 hmem

end DockerRef

namespace DockerRef

theorem tagOK_not_mem {t : List Char} (h : tagOK t = true) {c : Char}
    (hc : tagChar c = false) : c ∉ t := by
  intro hmem
  rw [tagOK_chars h c hmem] at hc
  exact absurd hc (by simp)

/-- Re-parsing `targetHost/<path>:<tag>` recovers exactly the pieces. -/
theorem parseNormalizedParts_reparse_tagged {t p tg : List Char}
    (ht0 : '/' ∉ t)
    (ht2 : t.contains '.' = true ∨ t.contains ':' = true)
    (ht3 : t ≠ legacyDefaultDomain)
    (ht4 : t ≠ defaultDomain)
    (hdom : domainOK t = true)
    (hp : pathOK p = true)
    (htg : tagOK tg = true)
    (hlen : (t ++ '/' :: p).length ≤ 255) :
    parseNormalizedParts (t ++ '/' :: (p ++ ':' :: tg)) = .ok (t, p, some tg, none) := by
  have h64 : isHex64 (t ++ '/' :: (p ++ ':' :: tg)) = false :=
    isHex64_false_of_slash (by simp)
  have hsd : splitDockerDomain (t ++ '/' :: (p ++ ':' :: tg)) = (t, p ++ ':' :: tg) := by
    unfold splitDockerDomain
    rw [splitFirstCh_sep _ ht0]
    have hmem : ('.' ∈ t) ∨ (':' ∈ t) := by
      rcases ht2 with hc | hc
      · exact Or.inl (by simpa using hc)
      · exact Or.inr (by simpa using hc)
    rcases hmem with hm | hm <;> simp [hm, ht3, ht4]
  have hcolon_p : ':' ∉ p := pathOK_not_mem hp (by decide) (by decide)
  have hat_p : '@' ∉ p := pathOK_not_mem hp (by decide) (by decide)
  have hsl_tg : '/' ∉ tg := tagOK_not_mem htg (by decide)
  have hcl_tg : ':' ∉ tg := tagOK_not_mem htg (by decide)
  have hat_tg : '@' ∉ tg := tagOK_not_mem htg (by decide)
  have hremote : splitFirstCh ':' (p ++ ':' :: tg) = some (p, tg) :=
    splitFirstCh_sep _ hcolon_p
  have hupper : p.any isUpperAscii = false := pathOK_no_upper hp
  have hdig : splitFirstCh '@' (p ++ ':' :: tg) = none := by
    apply splitFirstCh_eq_none
    simp only [List.mem_append, List.mem_cons]
    push_neg
    exact ⟨hat_p, by decide, hat_tg⟩
  have htag : splitTag (p ++ ':' :: tg) = (p, some tg) := splitTag_sep hsl_tg hcl_tg
  unfold parseNormalizedParts
  rw [h64]
  simp only [Bool.false_eq_true, if_false, hsd, hremote, splitDigest, hdig, htag, hupper,
    hdom, hp, htg]
  simp only [List.length_append, List.length_cons] at hlen
  simp
  omega

/-- Re-parsing `targetHost/<path>@<digest>` recovers exactly the pieces. -/
theorem parseNormalizedParts_reparse_digest {t p d : List Char}
    (ht0 : '/' ∉ t)
    (ht2 : t.contains '.' = true ∨ t.contains ':' = true)
    (ht3 : t ≠ legacyDefaultDomain)
    (ht4 : t ≠ defaultDomain)
    (hdom : domainOK t = true)
    (hp : pathOK p = true)
    (hd : digestOK d = true)
    (hlen : (t ++ '/' :: p).length ≤ 255) :
    parseNormalizedParts (t ++ '/' :: (p ++ '@' :: d)) = .ok (t, p, none, some d) := by
  have h64 : isHex64 (t ++ '/' :: (p ++ '@' :: d)) = false :=
    isHex64_false_of_slash (by simp)
  have hsd : splitDockerDomain (t ++ '/' :: (p ++ '@' :: d)) = (t, p ++ '@' :: d) := by
    unfold splitDockerDomain
    rw [splitFirstCh_sep _ ht0]
    have hmem : ('.' ∈ t) ∨ (':' ∈ t) := by
      rcases ht2 with hc | hc
      · exact Or.inl (by simpa using hc)
      · exact Or.inr (by simpa using hc)
    rcases hmem with hm | hm <;> simp [hm, ht3, ht4]
  have hcolon_p : ':' ∉ p := pathOK_not_mem hp (by decide) (by decide)
  have hat_p : '@' ∉ p := pathOK_not_mem hp (by decide) (by decide)
  obtain ⟨hdc, hdcol⟩ := digestOK_chars hd
  obtain ⟨⟨d1, d2⟩, hd12⟩ := Option.isSome_iff_exists.mp (splitFirstCh_isSome_of_mem hdcol)
  obtain ⟨hdeq, hd1c⟩ := splitFirstCh_eq_some hd12
  have hremote : splitFirstCh ':' (p ++ '@' :: d) = some (p ++ '@' :: d1, d2) := by
    rw [splitFirstCh_append_left _ hcolon_p]
    rw [show splitFirstCh ':' ('@' :: d) = (splitFirstCh ':' d).map (fun q => ('@' :: q.1, q.2)) from by
      rw [splitFirstCh]
      simp]
    rw [hd12]
    rfl
  have hupper : (p ++ '@' :: d1).any isUpperAscii = false := by
    rw [List.any_eq_false]
    intro c hc
    simp only [List.mem_append, List.mem_cons] at hc
    rcases hc with h1 | h2 | h3
    · have hpc := pathOK_chars hp c h1
      rcases Bool.or_eq_true _ _ |>.mp hpc with hx | hx
      · simp [compChar_not_upper hx]
      · have : c = '/' := by simpa using hx
        subst this
        decide
    · subst h2
      decide
    · have : c ∈ d := by
        rw [hdeq]
        exact List.mem_append.mpr (Or.inl h3)
      simp [digestChar_not_upper (hdc c this)]
  have hdig : splitFirstCh '@' (p ++ '@' :: d) = some (p, d) := splitFirstCh_sep _ hat_p
  have htag : splitTag p = (p, none) := splitTag_none hcolon_p
  unfold parseNormalizedParts
  rw [h64]
  simp only [Bool.false_eq_true, if_false, hsd, hremote, splitDigest, hdig, htag, hupper,
    hdom, hp, hd]
  simp only [List.length_append, List.length_cons] at hlen
  simp
  omega

end DockerRef

namespace DockerRef

/-- A successful normalization validated every returned piece. -/
theorem parseNormalizedParts_wf {s dom base : List Char}
    {otag odig : Option (List Char)}
    (h : parseNormalizedParts s = .ok (dom, base, otag, odig)) :
    domainOK dom = true ∧ pathOK base = true ∧
    (∀ tg, otag = some tg → tagOK tg = true) ∧
    (∀ d, odig = some d → digestOK d = true) := by
  simp only [parseNormalizedParts] at h
  split at h
  · exact absurd h (by simp)
  · split at h
    · exact absurd h (by simp)
    · split at h
      · exact absurd h (by simp)
      · split at h
        · exact absurd h (by simp)
        · split at h
          · exact absurd h (by simp)
          · split at h
            · exact absurd h (by simp)
            · split at h
              · exact absurd h (by simp)
              · rename_i hd1 hd2 hd3 hd4 hd5
                simp only [Except.ok.injEq, Prod.mk.injEq] at h
                obtain ⟨h1, h2, h3, h4⟩ := h
                subst h1
                subst h2
                subst h3
                subst h4
                refine ⟨by simpa using hd1, by simpa using hd2, ?_, ?_⟩
                · intro tg htg
                  rw [htg] at hd4
                  simpa using hd4
                · intro d hdg
                  rw [hdg] at hd5
                  simpa using hd5

end DockerRef

theorem wordChar_digitChar {k : Nat} (hk : k < 10) : DockerRef.wordChar (digitChar k) = true := by
  interval_cases k <;> decide

/-- Every character rendered by the decimal printer is a digit (hence a word
character). -/
theorem natDigitsAux_wordChar :
    ∀ (fuel n : Nat) (acc : List Char), (∀ c ∈ acc, DockerRef.wordChar c = true) →
      ∀ c ∈ natDigitsAux fuel n acc, DockerRef.wordChar c = true := by
  intro fuel
  induction fuel with
  | zero => intro n acc hacc c hc; exact hacc c hc
  | succ m ih =>
    intro n acc hacc c hc
    rw [natDigitsAux] at hc
    split at hc
    · rcases List.mem_cons.mp hc with rfl | hmem
      · exact wordChar_digitChar (by omega)
      · exact hacc c hmem
    · refine ih (n / 10) _ ?_ c hc
      intro x hx
      rcases List.mem_cons.mp hx with rfl | hmem
      · exact wordChar_digitChar (Nat.mod_lt _ (by omega))
      · exact hacc x hmem

theorem natToString_wordChar {n : Nat} : ∀ c ∈ (natToString n).data, DockerRef.wordChar c = true :=
  natDigitsAux_wordChar (n + 1) n [] (by simp)

namespace DockerRef

/-- Appending `-zarf-<digits>` to a valid tag stays a valid tag while the
length limit holds. -/
theorem tagOK_append_zarf {tg ds : List Char} (htg : tagOK tg = true)
    (hds : ∀ c ∈ ds, wordChar c = true)
    (hlen : (tg ++ '-' :: 'z' :: 'a' :: 'r' :: 'f' :: '-' :: ds).length ≤ 128) :
    tagOK (tg ++ '-' :: 'z' :: 'a' :: 'r' :: 'f' :: '-' :: ds) = true := by
  cases tg with
  | nil => simp [tagOK] at htg
  | cons c rest =>
    simp only [List.cons_append, tagOK, Bool.and_eq_true, List.all_eq_true,
      decide_eq_true_eq] at htg ⊢
    simp only [List.length_append, List.length_cons] at htg hlen ⊢
    refine ⟨⟨htg.1.1, ?_⟩, by omega⟩
    intro x hx
    simp only [List.mem_append, List.mem_cons] at hx
    rcases hx with h1 | h2
    · exact htg.1.2 x h1
    · rcases h2 with rfl | rfl | rfl | rfl | rfl | rfl | hmem
      · decide
      · decide
      · decide
      · decide
      · decide
      · decide
      · simp [hds x hmem]

/-- Re-parsing the tagged transform output yields an image whose host is the
target host. -/
theorem parseImageRef_reparse_tagged {t p tg : List Char}
    (ht0 : '/' ∉ t)
    (ht2 : t.contains '.' = true ∨ t.contains ':' = true)
    (ht3 : t ≠ legacyDefaultDomain)
    (ht4 : t ≠ defaultDomain)
    (hdom : domainOK t = true)
    (hp : pathOK p = true)
    (htg : tagOK tg = true)
    (hlen : (t ++ '/' :: p).length ≤ 255) :
    ∃ img2, ParseImageRef (String.mk (t ++ '/' :: (p ++ ':' :: tg))) = .ok img2 ∧
      img2.host = String.mk t := by
  obtain ⟨c0, cs, hpc, hlow⟩ := pathOK_head hp
  have hhd : ∀ c, (p ++ ':' :: tg).head? = some c → isLowerAl c = true := by
    intro c hc
    rw [hpc] at hc
    simp only [List.cons_append, List.head?_cons, Option.some.injEq] at hc
    rw [← hc]
    exact hlow
  have hoci : ociURLPre.data.isPrefixOf (t ++ '/' :: (p ++ ':' :: tg)) = false :=
    ociPre_false ht0 hhd
  have h64 : isHex64 (t ++ '/' :: (p ++ ':' :: tg)) = false :=
    isHex64_false_of_slash (by simp)
  have hdg : digestOK (t ++ '/' :: (p ++ ':' :: tg)) = false :=
    digestOK_false_of_slash (by simp)
  refine ⟨{ host := String.mk t, name := String.mk t ++ "/" ++ String.mk p,
            path := String.mk p, tag := String.mk tg, digest := "",
            reference := String.mk t ++ "/" ++ String.mk p ++ ":" ++ String.mk tg,
            tagOrDigest := ":" ++ String.mk tg }, ?_, rfl⟩
  simp only [ParseImageRef, hoci, h64, hdg, Bool.false_eq_true, if_false,
    parseNormalizedParts_reparse_tagged ht0 ht2 ht3 ht4 hdom hp htg hlen]

/-- Re-parsing the digest transform output yields an image whose host is the
target host. -/
theorem parseImageRef_reparse_digest {t p d : List Char}
    (ht0 : '/' ∉ t)
    (ht2 : t.contains '.' = true ∨ t.contains ':' = true)
    (ht3 : t ≠ legacyDefaultDomain)
    (ht4 : t ≠ defaultDomain)
    (hdom : domainOK t = true)
    (hp : pathOK p = true)
    (hd : digestOK d = true)
    (hlen : (t ++ '/' :: p).length ≤ 255) :
    ∃ img2, ParseImageRef (String.mk (t ++ '/' :: (p ++ '@' :: d))) = .ok img2 ∧
      img2.host = String.mk t := by
  obtain ⟨c0, cs, hpc, hlow⟩ := pathOK_head hp
  have hhd : ∀ c, (p ++ '@' :: d).head? = some c → isLowerAl c = true := by
    intro c hc
    rw [hpc] at hc
    simp only [List.cons_append, List.head?_cons, Option.some.injEq] at hc
    rw [← hc]
    exact hlow
  have hoci : ociURLPre.data.isPrefixOf (t ++ '/' :: (p ++ '@' :: d)) = false :=
    ociPre_false ht0 hhd
  have h64 : isHex64 (t ++ '/' :: (p ++ '@' :: d)) = false :=
    isHex64_false_of_slash (by simp)
  have hdg : digestOK (t ++ '/' :: (p ++ '@' :: d)) = false :=
    digestOK_false_of_slash (by simp)
  refine ⟨{ host := String.mk t, name := String.mk t ++ "/" ++ String.mk p,
            path := String.mk p, tag := "", digest := String.mk d,
            reference := String.mk t ++ "/" ++ String.mk p ++ "@" ++ String.mk d,
            tagOrDigest := "@" ++ String.mk d }, ?_, rfl⟩
  simp only [ParseImageRef, hoci, h64, hdg, Bool.false_eq_true, if_false,
    parseNormalizedParts_reparse_digest ht0 ht2 ht3 ht4 hdom hp hd hlen]

end DockerRef

/-- A successfully parsed image reference has validated components. -/
theorem parseImageRef_wf {r : String} {img : Image} (h : ParseImageRef r = .ok img) :
    DockerRef.domainOK img.host.data = true ∧ DockerRef.pathOK img.path.data = true ∧
    (img.digest = "" → DockerRef.tagOK img.tag.data = true) ∧
    (img.digest ≠ "" → DockerRef.digestOK img.digest.data = true) := by
  simp only [ParseImageRef] at h
  split at h <;>
  · split at h
    · exact absurd h (by simp)
    · split at h
      · exact absurd h (by simp)
      · split at h
        · exact absurd h (by simp)
        · rename_i domain base otag odig heq
          have hwf := DockerRef.parseNormalizedParts_wf heq
          split at h <;>
            (simp only [Except.ok.injEq] at h; subst h)
          · rename_i tg d
            refine ⟨hwf.1, hwf.2.1, ?_, ?_⟩
            · intro h0
              have hd := hwf.2.2.2 d rfl
              have hdn : d = [] := congrArg String.data h0
              rw [hdn] at hd
              exact absurd hd (by decide)
            · intro _
              exact hwf.2.2.2 d rfl
          · rename_i tg
            exact ⟨hwf.1, hwf.2.1, fun _ => hwf.2.2.1 tg rfl, fun hne => absurd rfl hne⟩
          · rename_i d
            refine ⟨hwf.1, hwf.2.1, ?_, fun _ => hwf.2.2.2 d rfl⟩
            intro h0
            have hd := hwf.2.2.2 d rfl
            have hdn : d = [] := congrArg String.data h0
            rw [hdn] at hd
            exact absurd hd (by decide)
          · exact ⟨hwf.1, hwf.2.1, fun _ => show DockerRef.tagOK "latest".data = true by decide,
              fun hne => absurd rfl hne⟩

/-- C9 (amended): the transform already returns references whose host prefixes
the target unchanged, and for a target host that is a genuine registry host
(slash-free, containing a dot or colon, not a docker.io alias, matching the
reference library's domain grammar of dot-separated alphanumeric components
or a bracketed IPv6 literal with an optional digit-only port, and within the
name and tag length limits) transforming an already-transformed reference
returns it unchanged: `ImageTransformHost t` is idempotent there. -/
theorem imageTransformHost_idempotent (t ref o : String) (img : Image)
    (hparse : ParseImageRef ref = .ok img)
    (ho : ImageTransformHost t ref = .ok o)
    (ht1 : '/' ∉ t.data)
    (ht2 : t.data.contains '.' = true ∨ t.data.contains ':' = true)
    (ht3 : t ≠ "index.docker.io")
    (ht4 : t ≠ "docker.io")
    (hdom : DockerRef.domainOK t.data = true)
    (hlen : (t.data ++ '/' :: img.path.data).length ≤ 255)
    (htaglen : (img.tag.data ++ '-' :: 'z' :: 'a' :: 'r' :: 'f' :: '-' ::
        (natToString (GetCRCHash img.name)).data).length ≤ 128) :
    ImageTransformHost t o = .ok o := by
  have ht3d : t.data ≠ DockerRef.legacyDefaultDomain := by
    intro hdd
    apply ht3
    cases t with
    | mk data => rw [show data = "index.docker.io".data from hdd]
  have ht4d : t.data ≠ DockerRef.defaultDomain := by
    intro hdd
    apply ht4
    cases t with
    | mk data => rw [show data = "docker.io".data from hdd]
  obtain ⟨hwdom, hwpath, hwtag, hwdig⟩ := parseImageRef_wf hparse
  simp only [ImageTransformHost, hparse] at ho
  split at ho
  · rename_i hpre
    simp only [Except.ok.injEq] at ho
    subst ho
    simp only [ImageTransformHost, hparse]
    simp [hpre]
  · rename_i hpre
    split at ho
    · rename_i hdig
      simp only [Except.ok.injEq] at ho
      obtain ⟨img2, himg2, hhost2⟩ :=
        DockerRef.parseImageRef_reparse_digest ht1 ht2 ht3d ht4d hdom hwpath
          (hwdig hdig) hlen
      have hodata : o.data = t.data ++ '/' :: (img.path.data ++ '@' :: img.digest.data) := by
        rw [← ho]
        simp [String.data_append]
      have he : o = String.mk (t.data ++ '/' :: (img.path.data ++ '@' :: img.digest.data)) :=
        (rfl : o = String.mk o.data).trans (congrArg String.mk hodata)
      have ho2 : ParseImageRef o = .ok img2 := by
        rw [he, himg2]
      have hp : img2.host.data.isPrefixOf t.data = true := by
        rw [hhost2]
        exact List.isPrefixOf_iff_prefix.mpr (List.prefix_refl _)
      simp only [ImageTransformHost, ho2]
      simp [hp]
    · rename_i hdig
      have hdig0 : img.digest = "" := by
        by_contra hne
        exact hdig hne
      simp only [Except.ok.injEq] at ho
      have htg : DockerRef.tagOK (img.tag.data ++ '-' :: 'z' :: 'a' :: 'r' :: 'f' :: '-' ::
          (natToString (GetCRCHash img.name)).data) = true :=
        DockerRef.tagOK_append_zarf (hwtag hdig0) natToString_wordChar htaglen
      obtain ⟨img2, himg2, hhost2⟩ :=
        DockerRef.parseImageRef_reparse_tagged ht1 ht2 ht3d ht4d hdom hwpath htg hlen
      have hodata : o.data = t.data ++ '/' :: (img.path.data ++ ':' ::
          (img.tag.data ++ '-' :: 'z' :: 'a' :: 'r' :: 'f' :: '-' ::
            (natToString (GetCRCHash img.name)).data)) := by
        rw [← ho]
        simp [String.data_append]
      have he : o = String.mk (t.data ++ '/' :: (img.path.data ++ ':' ::
          (img.tag.data ++ '-' :: 'z' :: 'a' :: 'r' :: 'f' :: '-' ::
            (natToString (GetCRCHash img.name)).data))) :=
        (rfl : o = String.mk o.data).trans (congrArg String.mk hodata)
      have ho2 : ParseImageRef o = .ok img2 := by
        rw [he, himg2]
      have hp : img2.host.data.isPrefixOf t.data = true := by
        rw [hhost2]
        exact List.isPrefixOf_iff_prefix.mpr (List.prefix_refl _)
      simp only [ImageTransformHost, ho2]
      simp [hp]

/-- C9 counterexample: idempotence fails for target hosts that are not
genuine registry hosts, in two ways.  For a host without a dot or colon
(`zarf-registry`) the transform output re-parses with the `docker.io` default
domain, so a second transform rewrites it again instead of returning it
unchanged.  For a host with a non-numeric port (`a:b`) the first transform
happily emits `a:b/app:v1-zarf-957708285`, but the second transform cannot
re-parse it - the reference library requires a digit-only port - and errors
instead of returning it unchanged. -/
theorem imageTransformHost_idem_cex :
    (ImageTransformHost "zarf-registry" "example.com/app:v1" =
      .ok "zarf-registry/app:v1-zarf-957708285" ∧
    ImageTransformHost "zarf-registry" "zarf-registry/app:v1-zarf-957708285" ≠
      .ok "zarf-registry/app:v1-zarf-957708285") ∧
    (ImageTransformHost "a:b" "example.com/app:v1" =
      .ok "a:b/app:v1-zarf-957708285" ∧
    DockerRef.domainOK "a:b".data = false ∧
    ImageTransformHost "a:b" "a:b/app:v1-zarf-957708285" =
      .error "invalid reference format") := by
  refine ⟨⟨by decide, by decide⟩, by decide, by decide, by decide⟩

/-- C9 witness: `imageTransformHost_idempotent` instantiated on the output of
transforming `docker.io/library/nginx:1.25` to the local mirror host. -/
theorem imageTransformHost_idempotent_witness :
    ImageTransformHost "127.0.0.1:31999" "127.0.0.1:31999/library/nginx:1.25-zarf-3793515731" =
      .ok "127.0.0.1:31999/library/nginx:1.25-zarf-3793515731" :=
  imageTransformHost_idempotent "127.0.0.1:31999" "docker.io/library/nginx:1.25"
    "127.0.0.1:31999/library/nginx:1.25-zarf-3793515731"
    { host := "docker.io", name := "docker.io/library/nginx", path := "library/nginx",
      tag := "1.25", digest := "", reference := "docker.io/library/nginx:1.25",
      tagOrDigest := ":1.25" }
    (by decide) (by decide) (by decide) (Or.inl (by decide)) (by decide) (by decide)
    (by decide) (by decide) (by decide)

/-! ## Claim C7: chart release names must be DNS-1035 labels
(src/unnamed/part_005, package `v1alpha1`) -/

/-- Lowercase ASCII letter. -/
def isLowerAlpha (c : Char) : Bool := 'a' ≤ c && c ≤ 'z'

/-- Lowercase letter or digit. -/
def isAlnumLower (c : Char) : Bool := isLowerAlpha c || ('0' ≤ c && c ≤ '9')

/-- Model of `k8s.io/apimachinery` `validation.IsDNS1035Label` as a predicate:
at most 63 bytes and matching `[a-z]([-a-z0-9]*[a-z0-9])?`. -/
def isDNS1035Label (s : String) : Bool :=
  goLen s ≤ 63 &&
    (match s.data with
     | [] => false
     | c :: rest =>
       isLowerAlpha c && rest.all (fun d => isAlnumLower d || d = '-') &&
         isAlnumLower ((c :: rest).getLast (by simp)))

/-- Model of `v1alpha1.ZarfChart` (the fields used by `Validate`). -/
structure ZarfChart where
  name : String
  version : String
  url : String
  repoName : String
  gitPath : String
  localPath : String
  namespaceField : String
  releaseName : String
  valuesFiles : List String
deriving DecidableEq

/-- Model of `v1alpha1.ZarfMaxChartNameLength`. -/
def ZarfMaxChartNameLength : Nat := 40

/-- Model of `v1alpha1.errChartReleaseNameEmpty`. -/
def errChartReleaseNameEmpty : String :=
  "release name empty, unable to fallback to chart name"

/-- Model of `v1alpha1.validateReleaseName`: fall back to the chart name,
reject empty, then validate against DNS-1035. -/
def validateReleaseName (chartName releaseName : String) : Option String :=
  let releaseName := if releaseName = "" then chartName else releaseName
  if releaseName = "" then some errChartReleaseNameEmpty
  else if !isDNS1035Label releaseName then
    some ("invalid release name '" ++ releaseName ++ "'")
  else none

/-- Model of `v1alpha1.ZarfChart.Validate`; the Go `errors.Join` accumulator
becomes a list of error messages, `[]` meaning a nil error. -/
def ZarfChart.Validate (chart : ZarfChart) : List String :=
  (if goLen chart.name > ZarfMaxChartNameLength then
     ["chart \"" ++ chart.name ++ "\" exceed the maximum length of 40 characters"] else []) ++
  (if chart.namespaceField = "" then
     ["chart \"" ++ chart.name ++ "\" must include a namespace"] else []) ++
  (if chart.url ≠ "" ∧ chart.localPath ≠ "" then
     ["chart \"" ++ chart.name ++ "\" must have either a url or localPath"] else []) ++
  (if chart.url = "" ∧ chart.localPath = "" then
     ["chart \"" ++ chart.name ++ "\" must have either a url or localPath"] else []) ++
  (if chart.version = "" then
     ["chart \"" ++ chart.name ++ "\" must include a chart version"] else []) ++
  (match validateReleaseName chart.name chart.releaseName with
   | some e => [e]
   | none => [])

/-- The effective release name of a chart: `releaseName`, falling back to
`name` when empty (the claim's wording). -/
def effectiveReleaseName (chart : ZarfChart) : String :=
  if chart.releaseName = "" then chart.name else chart.releaseName

/-- C7: `ZarfChart.Validate` succeeds only if the effective release name
(releaseName, falling back to name) is a valid DNS-1035 label. -/
theorem zarfChart_validate_dns1035 (chart : ZarfChart)
    (h : chart.Validate = []) :
    isDNS1035Label (effectiveReleaseName chart) = true := by
  have hrel : validateReleaseName chart.name chart.releaseName = none := by
    cases hv : validateReleaseName chart.name chart.releaseName with
    | none => rfl
    | some e =>
      unfold ZarfChart.Validate at h
      rw [hv] at h
      simp at h
  simp only [validateReleaseName] at hrel
  unfold effectiveReleaseName
  set e := if chart.releaseName = "" then chart.name else chart.releaseName with he
  split at hrel
  · exact absurd hrel (by simp)
  · split at hrel
    · exact absurd hrel (by simp)
    · rename_i hdns
      simpa using hdns

/-- C7 witness: a fully valid chart passes `Validate` and its effective
release name (the fallback to `name`) is a DNS-1035 label. -/
theorem zarfChart_validate_dns1035_witness :
    isDNS1035Label (effectiveReleaseName
      { name := "podinfo", version := "6.4.0", url := "https://example.com/charts",
        repoName := "", gitPath := "", localPath := "", namespaceField := "default",
        releaseName := "", valuesFiles := [] }) = true :=
  zarfChart_validate_dns1035 _ (by decide)

/-! ## Claim C10: package signature validation
(src/src/pkg/packager/publish.go, `ValidatePackageSignature`) -/

/-- Model of `config.ZarfYAML`. -/
def configZarfYAML : String := "zarf.yaml"

/-- Model of `config.ZarfYAMLSignature`. -/
def configZarfYAMLSignature : String := "zarf.yaml.sig"

/-- The error outcomes of `ValidatePackageSignature`; the two sentinel errors
`ErrPkgSigButNoKey` / `ErrPkgKeyButNoSig` become dedicated constructors. -/
inductive PkgSigError
  | pkgSigButNoKey
  | pkgKeyButNoSig
  | verifyFailed (msg : String)
deriving DecidableEq

/-- Model of `ValidatePackageSignature`.  The filesystem appears as the
`validPath` predicate (the negation of `utils.InvalidPath`), Cosign as the
`cosignVerifyBlob` callback returning an error message on failure, and
`config.CommonOptions.Insecure` as the `insecure` flag. -/
def ValidatePackageSignature (insecure : Bool) (validPath : String → Bool)
    (cosignVerifyBlob : String → String → String → Option String)
    (directory publicKeyPath : String) : Except PkgSigError Unit :=
  if insecure then .ok ()
  else
    let sigExist := validPath (directory ++ "/" ++ configZarfYAMLSignature)
    if sigExist = false ∧ publicKeyPath = "" then .ok ()
    else if sigExist = true ∧ publicKeyPath = "" then .error .pkgSigButNoKey
    else if sigExist = false ∧ publicKeyPath ≠ "" then .error .pkgKeyButNoSig
    else
      match cosignVerifyBlob (directory ++ "/" ++ configZarfYAML)
          (directory ++ "/" ++ configZarfYAMLSignature) publicKeyPath with
      | some e => .error (.verifyFailed ("package signature did not match the provided key: " ++ e))
      | none => .ok ()

/-- C10: the signature check fails exactly when the signature material is
asymmetric - signature without key, key without signature - succeeds without
verification when neither is present or the insecure flag is set, and
otherwise succeeds iff Cosign verification of zarf.yaml succeeds. -/
theorem validatePackageSignature_spec (insecure : Bool) (validPath : String → Bool)
    (cosignVerifyBlob : String → String → String → Option String)
    (directory publicKeyPath : String) :
    (insecure = true →
      ValidatePackageSignature insecure validPath cosignVerifyBlob directory publicKeyPath = .ok ()) ∧
    (insecure = false → validPath (directory ++ "/" ++ configZarfYAMLSignature) = false →
      publicKeyPath = "" →
      ValidatePackageSignature insecure validPath cosignVerifyBlob directory publicKeyPath = .ok ()) ∧
    (insecure = false → validPath (directory ++ "/" ++ configZarfYAMLSignature) = true →
      publicKeyPath = "" →
      ValidatePackageSignature insecure validPath cosignVerifyBlob directory publicKeyPath =
        .error .pkgSigButNoKey) ∧
    (insecure = false → validPath (directory ++ "/" ++ configZarfYAMLSignature) = false →
      publicKeyPath ≠ "" →
      ValidatePackageSignature insecure validPath cosignVerifyBlob directory publicKeyPath =
        .error .pkgKeyButNoSig) ∧
    (insecure = false → validPath (directory ++ "/" ++ configZarfYAMLSignature) = true →
      publicKeyPath ≠ "" →
      (ValidatePackageSignature insecure validPath cosignVerifyBlob directory publicKeyPath = .ok () ↔
        cosignVerifyBlob (directory ++ "/" ++ configZarfYAML)
          (directory ++ "/" ++ configZarfYAMLSignature) publicKeyPath = none)) := by
  refine ⟨?_, ?_, ?_, ?_, ?_⟩ <;> intro hins
  · simp [ValidatePackageSignature, hins]
  all_goals
    intro hsig hkey
    simp only [ValidatePackageSignature, hins, Bool.false_eq_true, if_false, hsig]
  · simp [hkey]
  · simp [hkey]
  · simp [hkey]
  · simp only [hkey]
    cases hcv : cosignVerifyBlob (directory ++ "/" ++ configZarfYAML)
        (directory ++ "/" ++ configZarfYAMLSignature) publicKeyPath <;>
      simp [hkey, hcv]

/-- C10 witness: `validatePackageSignature_spec` instantiated on concrete
filesystems covering all four outcomes. -/
theorem validatePackageSignature_spec_witness :
    ValidatePackageSignature false (fun p => p == "pkg/zarf.yaml.sig") (fun _ _ _ => none)
      "pkg" "" = .error .pkgSigButNoKey ∧
    ValidatePackageSignature false (fun _ => false) (fun _ _ _ => none)
      "pkg" "cosign.pub" = .error .pkgKeyButNoSig ∧
    ValidatePackageSignature true (fun _ => false) (fun _ _ _ => some "boom")
      "pkg" "k" = .ok () ∧
    ValidatePackageSignature false (fun _ => true) (fun _ _ _ => none)
      "pkg" "cosign.pub" = .ok () := by
  refine ⟨?_, ?_, ?_, ?_⟩
  · exact (validatePackageSignature_spec false (fun p => p == "pkg/zarf.yaml.sig")
      (fun _ _ _ => none) "pkg" "").2.2.1 rfl (by decide) rfl
  · exact (validatePackageSignature_spec false (fun _ => false)
      (fun _ _ _ => none) "pkg" "cosign.pub").2.2.2.1 rfl rfl (by decide)
  · exact (validatePackageSignature_spec true (fun _ => false)
      (fun _ _ _ => some "boom") "pkg" "k").1 rfl
  · exact ((validatePackageSignature_spec false (fun _ => true)
      (fun _ _ _ => none) "pkg" "cosign.pub").2.2.2.2 rfl rfl (by decide)).mpr rfl

/-! ## Claim C8: the pod mutation webhook never touches an already-patched pod

The hook implementation (`NewPodMutationHook`, src/internal/agent/hooks/pods.go)
is not under src/ - only its test (src/src/internal/agent/hooks/pods_test.go)
is - so the hook is modelled from the spec and corroborated against the
expected patches of `TestPodMutationWebhook`. -/

/-- Projection of `types.ZarfState` used by the pod hook. -/
structure ZarfState where
  registryAddress : String
deriving DecidableEq

/-- JSON-Patch values occurring in pod mutations. -/
inductive PatchValue
  | str (s : String)
  | localObjectRefs (names : List String)
  | labelMap (entries : List (String × String))
deriving DecidableEq

/-- Model of `operations.PatchOperation`. -/
structure PatchOperation where
  op : String
  path : String
  value : PatchValue
deriving DecidableEq

/-- Model of `operations.ReplacePatchOperation`. -/
def ReplacePatchOperation (path : String) (value : PatchValue) : PatchOperation :=
  { op := "replace", path := path, value := value }

/-- Model of `operations.AddPatchOperation`. -/
def AddPatchOperation (path : String) (value : PatchValue) : PatchOperation :=
  { op := "add", path := path, value := value }

/-- The parts of a pod the mutation reads and patches. -/
structure PodLike where
  labels : List (String × String)
  containerImages : List String
  initContainerImages : List String
  ephemeralContainerImages : List String
deriving DecidableEq

/-- Model of `config.ZarfImagePullSecretName`. -/
def zarfImagePullSecretName : String := "private-registry"

/-- Image-replacement patches for one container list, indexed from zero. -/
def mutateContainersAux (registry basePath : String) :
    Nat → List String → Except String (List PatchOperation)
  | _, [] => .ok []
  | i, img :: rest =>
    match ImageTransformHost registry img with
    | .error e => .error e
    | .ok transformed =>
      match mutateContainersAux registry basePath (i + 1) rest with
      | .error e => .error e
      | .ok ops =>
        .ok (ReplacePatchOperation (basePath ++ "/" ++ natToString i ++ "/image")
          (.str transformed) :: ops)

/-- Modelled from the spec: the `/mutate/pod` hook (`NewPodMutationHook`,
not under src/).  It skips pods already labelled `zarf-agent=patched` or
carrying `zarf.dev/agent` in `{skip, ignore}`; otherwise it replaces
`imagePullSecrets`, rewrites every container image through
`ImageTransformHost`, and stamps the `zarf-agent=patched` label (adding the
label map when the pod had no labels). -/
def PodMutationHook (state : ZarfState) (pod : PodLike) :
    Except String (List PatchOperation) :=
  if pod.labels.lookup "zarf-agent" = some "patched" then .ok []
  else if pod.labels.lookup "zarf.dev/agent" = some "skip" ∨
      pod.labels.lookup "zarf.dev/agent" = some "ignore" then .ok []
  else
    match mutateContainersAux state.registryAddress "/spec/initContainers" 0
        pod.initContainerImages with
    | .error e => .error e
    | .ok initOps =>
      match mutateContainersAux state.registryAddress "/spec/ephemeralContainers" 0
          pod.ephemeralContainerImages with
      | .error e => .error e
      | .ok ephOps =>
        match mutateContainersAux state.registryAddress "/spec/containers" 0
            pod.containerImages with
        | .error e => .error e
        | .ok contOps =>
          let labelOp :=
            if pod.labels.isEmpty then
              AddPatchOperation "/metadata/labels" (.labelMap [("zarf-agent", "patched")])
            else
              ReplacePatchOperation "/metadata/labels/zarf-agent" (.str "patched")
          .ok (ReplacePatchOperation "/spec/imagePullSecrets"
              (.localObjectRefs [zarfImagePullSecretName]) ::
            (initOps ++ ephOps ++ contOps ++ [labelOp]))

/-- The model reproduces the expected patch list of
`TestPodMutationWebhook` for the unlabelled nginx pod. -/
theorem podMutationHook_matches_test :
    PodMutationHook { registryAddress := "127.0.0.1:31999" }
      { labels := [], containerImages := ["nginx"], initContainerImages := [],
        ephemeralContainerImages := [] } =
      .ok [ReplacePatchOperation "/spec/imagePullSecrets"
             (.localObjectRefs ["private-registry"]),
           ReplacePatchOperation "/spec/containers/0/image"
             (.str "127.0.0.1:31999/library/nginx:latest-zarf-3793515731"),
           AddPatchOperation "/metadata/labels" (.labelMap [("zarf-agent", "patched")])] := by
  decide

/-- C8: a pod already carrying `zarf-agent=patched` is returned with an empty
patch - no image, imagePullSecrets or label rewriting occurs. -/
theorem podMutationHook_skips_patched (state : ZarfState) (pod : PodLike)
    (h : pod.labels.lookup "zarf-agent" = some "patched") :
    PodMutationHook state pod = .ok [] := by
  unfold PodMutationHook
  rw [h]
  simp

/-- C8 witness: `podMutationHook_skips_patched` on the test's patched pod. -/
theorem podMutationHook_skips_patched_witness :
    PodMutationHook { registryAddress := "127.0.0.1:31999" }
      { labels := [("zarf-agent", "patched")], containerImages := ["nginx"],
        initContainerImages := [], ephemeralContainerImages := [] } = .ok [] :=
  podMutationHook_skips_patched _ _ (by decide)

/-! ## Claims C4 and C5: the component deploy loop (src/unnamed/part_015)

`deployComponent` and its helpers are modelled as trace-producing functions:
every call to an external collaborator (script runner, file copier, image
library, git pusher, data injector, Helm) emits one event, and the image and
repo push primitives are parameters reporting success or failure of each
attempt.  The Go functions return nothing - failures of the push loops are
only logged - so the model's return type is the plain event trace. -/

inductive DeployEvent
  | runBeforeScript (script : String)
  | runAfterScript (script : String)
  | copyFile (index : Nat)
  | imagePushAttempt (ok : Bool)
  | repoPushAttempt (ok : Bool)
  | logError (msg : String)
  | sleepSeconds (n : Nat)
  | dataInjection (target : String)
  | installChart (name : String)
  | installManifest (name : String)
deriving DecidableEq

/-- Projection of `types.ZarfComponent` used by `deployComponent`. -/
structure ZarfComponentModel where
  name : String
  scriptsBefore : List String
  scriptsAfter : List String
  files : List String
  images : List String
  repos : List String
  dataInjections : List String
  charts : List String
  manifests : List String
deriving DecidableEq

/-- Model of `runComponentScripts`: run each script in order (the event
constructor records which call site - Scripts.Before or Scripts.After). -/
def runComponentScripts (mk : String → DeployEvent) (scripts : List String) :
    List DeployEvent :=
  scripts.map mk

/-- Model of `processComponentFiles`: copy file `0`, `1`, ... in order. -/
def processComponentFiles (componentFiles : List String) : List DeployEvent :=
  (List.range componentFiles.length).map DeployEvent.copyFile

/-- The retry loop of `pushImagesToRegistry`: up to `rem` more iterations of
`for retry := 0; retry < 3; retry++`, logging and sleeping five seconds after
every failed attempt. -/
def pushImagesLoop (push : Nat → Bool) : Nat → Nat → List DeployEvent
  | _, 0 => []
  | retry, rem + 1 =>
    if push retry then [.imagePushAttempt true]
    else
      .imagePushAttempt false ::
      .logError "Unable to push images to the Registry, retrying in 5 seconds..." ::
      .sleepSeconds 5 :: pushImagesLoop push (retry + 1) rem

/-- Model of `pushImagesToRegistry` (src/unnamed/part_015 lines 732-747). -/
def pushImagesToRegistry (componentImages : List String) (push : Nat → Bool) :
    List DeployEvent :=
  if componentImages.isEmpty then [] else pushImagesLoop push 0 3

/-- The retry loop of `pushReposToRepository`. -/
def pushReposLoop (push : Nat → Bool) : Nat → Nat → List DeployEvent
  | _, 0 => []
  | retry, rem + 1 =>
    if push retry then [.repoPushAttempt true]
    else
      .repoPushAttempt false ::
      .logError "Unable to push repos to the Git Server, retrying in 5 seconds..." ::
      .sleepSeconds 5 :: pushReposLoop push (retry + 1) rem

/-- Model of `pushReposToRepository` (src/unnamed/part_015 lines 749-765). -/
def pushReposToRepository (repos : List String) (push : Nat → Bool) :
    List DeployEvent :=
  if repos.isEmpty then [] else pushReposLoop push 0 3

/-- Model of `performDataInjections` (the deferred wait group makes the call
synchronous: it returns after every injection completed). -/
def performDataInjections (dataInjections : List String) : List DeployEvent :=
  dataInjections.map DeployEvent.dataInjection

/-- Model of `installChartAndManifests`: all charts, then all manifests. -/
def installChartAndManifests (component : ZarfComponentModel) : List DeployEvent :=
  component.charts.map DeployEvent.installChart ++
    component.manifests.map DeployEvent.installManifest

/-- Model of `deployComponent` (src/unnamed/part_015 lines 566-595):
skip the injector/registry components when an external registry was given,
otherwise before-scripts, files, images, repos, data injections,
charts+manifests, after-scripts - returning only the trace (the Go function
has no error result). -/
def deployComponent (externalRegistryAddress : String)
    (push pushRepo : Nat → Bool) (component : ZarfComponentModel) :
    List DeployEvent :=
  if externalRegistryAddress ≠ "" ∧
      (component.name = "zarf-injector" ∨ component.name = "zarf-registry") then []
  else
    runComponentScripts .runBeforeScript component.scriptsBefore ++
    processComponentFiles component.files ++
    pushImagesToRegistry component.images push ++
    pushReposToRepository component.repos pushRepo ++
    performDataInjections component.dataInjections ++
    installChartAndManifests component ++
    runComponentScripts .runAfterScript component.scriptsAfter

/-- Event `i` strictly precedes event `j` whenever `i` is an `A`-event and
`j` is a `B`-event. -/
def OpsOrdered (tr : List DeployEvent) (isA isB : DeployEvent → Prop) : Prop :=
  ∀ i j, (hi : i < tr.length) → (hj : j < tr.length) →
    isA (tr.get ⟨i, hi⟩) → isB (tr.get ⟨j, hj⟩) → i < j

def isFileOp : DeployEvent → Prop
  | .copyFile _ => True
  | _ => False

def isImageOp : DeployEvent → Prop
  | .imagePushAttempt _ => True
  | _ => False

def isRepoOp : DeployEvent → Prop
  | .repoPushAttempt _ => True
  | _ => False

def isDataOp : DeployEvent → Prop
  | .dataInjection _ => True
  | _ => False

def isChartOp : DeployEvent → Prop
  | .installChart _ => True
  | _ => False

def isManifestOp : DeployEvent → Prop
  | .installManifest _ => True
  | _ => False

def isAfterScriptOp : DeployEvent → Prop
  | .runAfterScript _ => True
  | _ => False

theorem opsOrdered_append {isA isB : DeployEvent → Prop} {xs ys : List DeployEvent}
    (hA : ∀ e ∈ ys, ¬ isA e) (hB : ∀ e ∈ xs, ¬ isB e) :
    OpsOrdered (xs ++ ys) isA isB := by
  intro i j hi hj ha hb
  have hix : i < xs.length := by
    by_contra hge
    push_neg at hge
    have hmem : (xs ++ ys).get ⟨i, hi⟩ ∈ ys := by
      rw [List.get_eq_getElem, List.getElem_append_right hge]
      exact List.getElem_mem _
    exact hA _ hmem ha
  have hjx : xs.length ≤ j := by
    by_contra hlt
    push_neg at hlt
    have hmem : (xs ++ ys).get ⟨j, hj⟩ ∈ xs := by
      rw [List.get_eq_getElem, List.getElem_append_left hlt]
      exact List.getElem_mem _
    exact hB _ hmem hb
  omega

theorem mem_runComponentScripts {mk : String → DeployEvent} {scripts : List String}
    {e : DeployEvent} (h : e ∈ runComponentScripts mk scripts) : ∃ s, e = mk s := by
  obtain ⟨s, -, hs⟩ := List.mem_map.mp h
  exact ⟨s, hs.symm⟩

theorem mem_processComponentFiles {files : List String} {e : DeployEvent}
    (h : e ∈ processComponentFiles files) : ∃ i, e = .copyFile i := by
  obtain ⟨i, -, hs⟩ := List.mem_map.mp h
  exact ⟨i, hs.symm⟩

theorem mem_pushImagesLoop {push : Nat → Bool} :
    ∀ {n r : Nat} {e : DeployEvent}, e ∈ pushImagesLoop push r n →
      (∃ b, e = .imagePushAttempt b) ∨ (∃ m, e = .logError m) ∨ (∃ k, e = .sleepSeconds k) := by
  intro n
  induction n with
  | zero => intro r e h; simp [pushImagesLoop] at h
  | succ m ih =>
    intro r e h
    rw [pushImagesLoop] at h
    split at h
    · simp at h
      exact Or.inl ⟨true, h⟩
    · simp only [List.mem_cons] at h
      rcases h with rfl | rfl | rfl | hmem
      · exact Or.inl ⟨false, rfl⟩
      · exact Or.inr (Or.inl ⟨_, rfl⟩)
      · exact Or.inr (Or.inr ⟨5, rfl⟩)
      · exact ih hmem

theorem mem_pushImagesToRegistry {imgs : List String} {push : Nat → Bool} {e : DeployEvent}
    (h : e ∈ pushImagesToRegistry imgs push) :
    (∃ b, e = .imagePushAttempt b) ∨ (∃ m, e = .logError m) ∨ (∃ k, e = .sleepSeconds k) := by
  unfold pushImagesToRegistry at h
  split at h
  · simp at h
  · exact mem_pushImagesLoop h

theorem mem_pushReposLoop {push : Nat → Bool} :
    ∀ {n r : Nat} {e : DeployEvent}, e ∈ pushReposLoop push r n →
      (∃ b, e = .repoPushAttempt b) ∨ (∃ m, e = .logError m) ∨ (∃ k, e = .sleepSeconds k) := by
  intro n
  induction n with
  | zero => intro r e h; simp [pushReposLoop] at h
  | succ m ih =>
    intro r e h
    rw [pushReposLoop] at h
    split at h
    · simp at h
      exact Or.inl ⟨true, h⟩
    · simp only [List.mem_cons] at h
      rcases h with rfl | rfl | rfl | hmem
      · exact Or.inl ⟨false, rfl⟩
      · exact Or.inr (Or.inl ⟨_, rfl⟩)
      · exact Or.inr (Or.inr ⟨5, rfl⟩)
      · exact ih hmem

theorem mem_pushReposToRepository {repos : List String} {push : Nat → Bool} {e : DeployEvent}
    (h : e ∈ pushReposToRepository repos push) :
    (∃ b, e = .repoPushAttempt b) ∨ (∃ m, e = .logError m) ∨ (∃ k, e = .sleepSeconds k) := by
  unfold pushReposToRepository at h
  split at h
  · simp at h
  · exact mem_pushReposLoop h

theorem mem_performDataInjections {ds : List String} {e : DeployEvent}
    (h : e ∈ performDataInjections ds) : ∃ s, e = .dataInjection s := by
  obtain ⟨s, -, hs⟩ := List.mem_map.mp h
  exact ⟨s, hs.symm⟩

theorem mem_installChartAndManifests {c : ZarfComponentModel} {e : DeployEvent}
    (h : e ∈ installChartAndManifests c) :
    (∃ s, e = .installChart s) ∨ (∃ s, e = .installManifest s) := by
  rcases List.mem_append.mp h with h1 | h2
  · obtain ⟨s, -, hs⟩ := List.mem_map.mp h1
    exact Or.inl ⟨s, hs.symm⟩
  · obtain ⟨s, -, hs⟩ := List.mem_map.mp h2
    exact Or.inr ⟨s, hs.symm⟩

theorem notOps_scriptsBefore {sc : List String} {e : DeployEvent}
    (h : e ∈ runComponentScripts DeployEvent.runBeforeScript sc) :
    ¬ isFileOp e ∧ ¬ isImageOp e ∧ ¬ isRepoOp e ∧ ¬ isDataOp e ∧
      ¬ isChartOp e ∧ ¬ isManifestOp e ∧ ¬ isAfterScriptOp e := by
  obtain ⟨s, rfl⟩ := mem_runComponentScripts h
  simp [isFileOp, isImageOp, isRepoOp, isDataOp, isChartOp, isManifestOp, isAfterScriptOp]

theorem notOps_scriptsAfter {sc : List String} {e : DeployEvent}
    (h : e ∈ runComponentScripts DeployEvent.runAfterScript sc) :
    ¬ isFileOp e ∧ ¬ isImageOp e ∧ ¬ isRepoOp e ∧ ¬ isDataOp e ∧
      ¬ isChartOp e ∧ ¬ isManifestOp e := by
  obtain ⟨s, rfl⟩ := mem_runComponentScripts h
  simp [isFileOp, isImageOp, isRepoOp, isDataOp, isChartOp, isManifestOp]

theorem notOps_files {fs : List String} {e : DeployEvent}
    (h : e ∈ processComponentFiles fs) :
    ¬ isImageOp e ∧ ¬ isRepoOp e ∧ ¬ isDataOp e ∧ ¬ isChartOp e ∧
      ¬ isManifestOp e ∧ ¬ isAfterScriptOp e := by
  obtain ⟨i, rfl⟩ := mem_processComponentFiles h
  simp [isImageOp, isRepoOp, isDataOp, isChartOp, isManifestOp, isAfterScriptOp]

theorem notOps_images {imgs : List String} {push : Nat → Bool} {e : DeployEvent}
    (h : e ∈ pushImagesToRegistry imgs push) :
    ¬ isFileOp e ∧ ¬ isRepoOp e ∧ ¬ isDataOp e ∧ ¬ isChartOp e ∧
      ¬ isManifestOp e ∧ ¬ isAfterScriptOp e := by
  rcases mem_pushImagesToRegistry h with ⟨b, rfl⟩ | ⟨m, rfl⟩ | ⟨k, rfl⟩ <;>
    simp [isFileOp, isRepoOp, isDataOp, isChartOp, isManifestOp, isAfterScriptOp]

theorem notOps_repos {rs : List String} {push : Nat → Bool} {e : DeployEvent}
    (h : e ∈ pushReposToRepository rs push) :
    ¬ isFileOp e ∧ ¬ isImageOp e ∧ ¬ isDataOp e ∧ ¬ isChartOp e ∧
      ¬ isManifestOp e ∧ ¬ isAfterScriptOp e := by
  rcases mem_pushReposToRepository h with ⟨b, rfl⟩ | ⟨m, rfl⟩ | ⟨k, rfl⟩ <;>
    simp [isFileOp, isImageOp, isDataOp, isChartOp, isManifestOp, isAfterScriptOp]

theorem notOps_data {ds : List String} {e : DeployEvent}
    (h : e ∈ performDataInjections ds) :
    ¬ isFileOp e ∧ ¬ isImageOp e ∧ ¬ isRepoOp e ∧ ¬ isChartOp e ∧
      ¬ isManifestOp e ∧ ¬ isAfterScriptOp e := by
  obtain ⟨s, rfl⟩ := mem_performDataInjections h
  simp [isFileOp, isImageOp, isRepoOp, isChartOp, isManifestOp, isAfterScriptOp]

theorem notOps_charts {cs : List String} {e : DeployEvent}
    (h : e ∈ cs.map DeployEvent.installChart) :
    ¬ isFileOp e ∧ ¬ isImageOp e ∧ ¬ isRepoOp e ∧ ¬ isDataOp e ∧
      ¬ isManifestOp e ∧ ¬ isAfterScriptOp e := by
  obtain ⟨s, -, rfl⟩ := List.mem_map.mp h
  simp [isFileOp, isImageOp, isRepoOp, isDataOp, isManifestOp, isAfterScriptOp]

theorem notOps_manifests {ms : List String} {e : DeployEvent}
    (h : e ∈ ms.map DeployEvent.installManifest) :
    ¬ isFileOp e ∧ ¬ isImageOp e ∧ ¬ isRepoOp e ∧ ¬ isDataOp e ∧
      ¬ isChartOp e ∧ ¬ isAfterScriptOp e := by
  obtain ⟨s, -, rfl⟩ := List.mem_map.mp h
  simp [isFileOp, isImageOp, isRepoOp, isDataOp, isChartOp, isAfterScriptOp]

/-- C4: the claim says that when every attempt in the retry budget fails, the
push step reports failure. The code retries three times with a five-second
backoff, but `pushImagesToRegistry` and `pushReposToRepository` return nothing:
after the third failure the loop simply ends, `deployComponent` proceeds to the
charts and after-scripts, and no failure is reported. With an always-failing
push, the deploy trace shows exactly three failed image-push attempts and three
failed repo-push attempts, each followed only by an error log and a 5-second
sleep, and then the chart install and after-script still run. -/
theorem deployComponent_push_failure_swallowed :
    deployComponent "" (fun _ => false) (fun _ => false)
        { name := "c", scriptsBefore := [], scriptsAfter := ["after"],
          files := [], images := ["img"], repos := ["repo"],
          dataInjections := [], charts := ["chart"], manifests := [] } =
      [.imagePushAttempt false,
       .logError "Unable to push images to the Registry, retrying in 5 seconds...",
       .sleepSeconds 5,
       .imagePushAttempt false,
       .logError "Unable to push images to the Registry, retrying in 5 seconds...",
       .sleepSeconds 5,
       .imagePushAttempt false,
       .logError "Unable to push images to the Registry, retrying in 5 seconds...",
       .sleepSeconds 5,
       .repoPushAttempt false,
       .logError "Unable to push repos to the Git Server, retrying in 5 seconds...",
       .sleepSeconds 5,
       .repoPushAttempt false,
       .logError "Unable to push repos to the Git Server, retrying in 5 seconds...",
       .sleepSeconds 5,
       .repoPushAttempt false,
       .logError "Unable to push repos to the Git Server, retrying in 5 seconds...",
       .sleepSeconds 5,
       .installChart "chart",
       .runAfterScript "after"] := by
  decide

/-- C5 counterexample: the claim orders charts and manifests before images and
repos, but `deployComponent` pushes images and repos before installing charts
and manifests. For a component with one file, image, repo, data injection,
chart, manifest and after-script, the trace puts the image push at index 1 and
the chart install at index 4, so charts do not precede images. -/
theorem deployComponent_order_cex :
    deployComponent "" (fun _ => true) (fun _ => true)
        { name := "c", scriptsBefore := [], scriptsAfter := ["a"],
          files := ["f"], images := ["i"], repos := ["r"],
          dataInjections := ["d"], charts := ["h"], manifests := ["m"] } =
      [.copyFile 0, .imagePushAttempt true, .repoPushAttempt true,
       .dataInjection "d", .installChart "h", .installManifest "m",
       .runAfterScript "a"] ∧
    ¬ OpsOrdered
        (deployComponent "" (fun _ => true) (fun _ => true)
          { name := "c", scriptsBefore := [], scriptsAfter := ["a"],
            files := ["f"], images := ["i"], repos := ["r"],
            dataInjections := ["d"], charts := ["h"], manifests := ["m"] })
        isChartOp isImageOp := by
  refine ⟨by decide, fun h => ?_⟩
  have h41 := h 4 1 (by decide) (by decide) (by exact trivial) (by exact trivial)
  omega

/-- C5 amended: within a deployed component the observable operations execute
as files, then images, then repos, then data injections, then charts, then
manifests, then after-scripts — for every component, external-registry setting
and push outcome (the skip branch gives the empty trace, where the ordering is
vacuous). -/
theorem deployComponent_actual_order (ext : String) (push pushRepo : Nat → Bool)
    (c : ZarfComponentModel) :
    OpsOrdered (deployComponent ext push pushRepo c) isFileOp isImageOp ∧
    OpsOrdered (deployComponent ext push pushRepo c) isImageOp isRepoOp ∧
    OpsOrdered (deployComponent ext push pushRepo c) isRepoOp isDataOp ∧
    OpsOrdered (deployComponent ext push pushRepo c) isDataOp isChartOp ∧
    OpsOrdered (deployComponent ext push pushRepo c) isChartOp isManifestOp ∧
    OpsOrdered (deployComponent ext push pushRepo c) isManifestOp isAfterScriptOp := by
  by_cases hskip : ext ≠ "" ∧ (c.name = "zarf-injector" ∨ c.name = "zarf-registry")
  · have htr : deployComponent ext push pushRepo c = [] := by
      unfold deployComponent
      rw [if_pos hskip]
    rw [htr]
    refine ⟨?_, ?_, ?_, ?_, ?_, ?_⟩ <;>
      · intro i j hi hj ha hb
        simp at hi
  · refine ⟨?_, ?_, ?_, ?_, ?_, ?_⟩
    · rw [show deployComponent ext push pushRepo c =
          (runComponentScripts DeployEvent.runBeforeScript c.scriptsBefore ++
            processComponentFiles c.files) ++
          (pushImagesToRegistry c.images push ++
            (pushReposToRepository c.repos pushRepo ++
              (performDataInjections c.dataInjections ++
                (c.charts.map DeployEvent.installChart ++
                  (c.manifests.map DeployEvent.installManifest ++
                    runComponentScripts DeployEvent.runAfterScript c.scriptsAfter)))))
          from by
        unfold deployComponent
        rw [if_neg hskip]
        simp [installChartAndManifests, List.append_assoc]]
      refine opsOrdered_append ?_ ?_
      · intro e he
        simp only [List.mem_append] at he
        rcases he with he | he | he | he | he | he
        · exact (notOps_images he).1
        · exact (notOps_repos he).1
        · exact (notOps_data he).1
        · exact (notOps_charts he).1
        · exact (notOps_manifests he).1
        · exact (notOps_scriptsAfter he).1
      · intro e he
        simp only [List.mem_append] at he
        rcases he with he | he
        · exact (notOps_scriptsBefore he).2.1
        · exact (notOps_files he).1
    · rw [show deployComponent ext push pushRepo c =
          (runComponentScripts DeployEvent.runBeforeScript c.scriptsBefore ++
            (processComponentFiles c.files ++ pushImagesToRegistry c.images push)) ++
          (pushReposToRepository c.repos pushRepo ++
            (performDataInjections c.dataInjections ++
              (c.charts.map DeployEvent.installChart ++
                (c.manifests.map DeployEvent.installManifest ++
                  runComponentScripts DeployEvent.runAfterScript c.scriptsAfter))))
          from by
        unfold deployComponent
        rw [if_neg hskip]
        simp [installChartAndManifests, List.append_assoc]]
      refine opsOrdered_append ?_ ?_
      · intro e he
        simp only [List.mem_append] at he
        rcases he with he | he | he | he | he
        · exact (notOps_repos he).2.1
        · exact (notOps_data he).2.1
        · exact (notOps_charts he).2.1
        · exact (notOps_manifests he).2.1
        · exact (notOps_scriptsAfter he).2.1
      · intro e he
        simp only [List.mem_append] at he
        rcases he with he | he | he
        · exact (notOps_scriptsBefore he).2.2.1
        · exact (notOps_files he).2.1
        · exact (notOps_images he).2.1
    · rw [show deployComponent ext push pushRepo c =
          (runComponentScripts DeployEvent.runBeforeScript c.scriptsBefore ++
            (processComponentFiles c.files ++
              (pushImagesToRegistry c.images push ++
                pushReposToRepository c.repos pushRepo))) ++
          (performDataInjections c.dataInjections ++
            (c.charts.map DeployEvent.installChart ++
              (c.manifests.map DeployEvent.installManifest ++
                runComponentScripts DeployEvent.runAfterScript c.scriptsAfter)))
          from by
        unfold deployComponent
        rw [if_neg hskip]
        simp [installChartAndManifests, List.append_assoc]]
      refine opsOrdered_append ?_ ?_
      · intro e he
        simp only [List.mem_append] at he
        rcases he with he | he | he | he
        · exact (notOps_data he).2.2.1
        · exact (notOps_charts he).2.2.1
        · exact (notOps_manifests he).2.2.1
        · exact (notOps_scriptsAfter he).2.2.1
      · intro e he
        simp only [List.mem_append] at he
        rcases he with he | he | he | he
        · exact (notOps_scriptsBefore he).2.2.2.1
        · exact (notOps_files he).2.2.1
        · exact (notOps_images he).2.2.1
        · exact (notOps_repos he).2.2.1
    · rw [show deployComponent ext push pushRepo c =
          (runComponentScripts DeployEvent.runBeforeScript c.scriptsBefore ++
            (processComponentFiles c.files ++
              (pushImagesToRegistry c.images push ++
                (pushReposToRepository c.repos pushRepo ++
                  performDataInjections c.dataInjections)))) ++
          (c.charts.map DeployEvent.installChart ++
            (c.manifests.map DeployEvent.installManifest ++
              runComponentScripts DeployEvent.runAfterScript c.scriptsAfter))
          from by
        unfold deployComponent
        rw [if_neg hskip]
        simp [installChartAndManifests, List.append_assoc]]
      refine opsOrdered_append ?_ ?_
      · intro e he
        simp only [List.mem_append] at he
        rcases he with he | he | he
        · exact (notOps_charts he).2.2.2.1
        · exact (notOps_manifests he).2.2.2.1
        · exact (notOps_scriptsAfter he).2.2.2.1
      · intro e he
        simp only [List.mem_append] at he
        rcases he with he | he | he | he | he
        · exact (notOps_scriptsBefore he).2.2.2.2.1
        · exact (notOps_files he).2.2.2.1
        · exact (notOps_images he).2.2.2.1
        · exact (notOps_repos he).2.2.2.1
        · exact (notOps_data he).2.2.2.1
    · rw [show deployComponent ext push pushRepo c =
          (runComponentScripts DeployEvent.runBeforeScript c.scriptsBefore ++
            (processComponentFiles c.files ++
              (pushImagesToRegistry c.images push ++
                (pushReposToRepository c.repos pushRepo ++
                  (performDataInjections c.dataInjections ++
                    c.charts.map DeployEvent.installChart))))) ++
          (c.manifests.map DeployEvent.installManifest ++
            runComponentScripts DeployEvent.runAfterScript c.scriptsAfter)
          from by
        unfold deployComponent
        rw [if_neg hskip]
        simp [installChartAndManifests, List.append_assoc]]
      refine opsOrdered_append ?_ ?_
      · intro e he
        simp only [List.mem_append] at he
        rcases he with he | he
        · exact (notOps_manifests he).2.2.2.2.1
        · exact (notOps_scriptsAfter he).2.2.2.2.1
      · intro e he
        simp only [List.mem_append] at he
        rcases he with he | he | he | he | he | he
        · exact (notOps_scriptsBefore he).2.2.2.2.2.1
        · exact (notOps_files he).2.2.2.2.1
        · exact (notOps_images he).2.2.2.2.1
        · exact (notOps_repos he).2.2.2.2.1
        · exact (notOps_data he).2.2.2.2.1
        · exact (notOps_charts he).2.2.2.2.1
    · rw [show deployComponent ext push pushRepo c =
          (runComponentScripts DeployEvent.runBeforeScript c.scriptsBefore ++
            (processComponentFiles c.files ++
              (pushImagesToRegistry c.images push ++
                (pushReposToRepository c.repos pushRepo ++
                  (performDataInjections c.dataInjections ++
                    (c.charts.map DeployEvent.installChart ++
                      c.manifests.map DeployEvent.installManifest)))))) ++
          runComponentScripts DeployEvent.runAfterScript c.scriptsAfter
          from by
        unfold deployComponent
        rw [if_neg hskip]
        simp [installChartAndManifests, List.append_assoc]]
      refine opsOrdered_append ?_ ?_
      · intro e he
        exact (notOps_scriptsAfter he).2.2.2.2.2
      · intro e he
        simp only [List.mem_append] at he
        rcases he with he | he | he | he | he | he | he
        · exact (notOps_scriptsBefore he).2.2.2.2.2.2
        · exact (notOps_files he).2.2.2.2.2
        · exact (notOps_images he).2.2.2.2.2
        · exact (notOps_repos he).2.2.2.2.2
        · exact (notOps_data he).2.2.2.2.2
        · exact (notOps_charts he).2.2.2.2.2
        · exact (notOps_manifests he).2.2.2.2.2

namespace Composer

/-- Split a string at every slash character (structural model of the
path-component splitting done by Go's filepath.Clean on relative paths). -/
def splitSlashAux : List Char → List Char → List String
  | [], acc => [String.mk acc.reverse]
  | c :: rest, acc =>
    if c = '/' then String.mk acc.reverse :: splitSlashAux rest []
    else splitSlashAux rest (c :: acc)

def splitSlash (s : String) : List String := splitSlashAux s.data []

def joinSep (sep : String) : List String → String
  | [] => ""
  | [x] => x
  | x :: y :: rest => x ++ sep ++ joinSep sep (y :: rest)

/-- Lexical cleaning of relative-path segments: drop empty and dot segments,
let a dot-dot segment cancel the preceding kept segment (staying when there is
nothing left to cancel), as filepath.Clean does for relative paths. -/
def goCleanSegs (segs : List String) : List String :=
  (segs.foldl (fun acc seg =>
    if seg = "" ∨ seg = "." then acc
    else if seg = ".." then
      match acc with
      | [] => [".."]
      | ".." :: _ => ".." :: acc
      | _ :: rest => rest
    else seg :: acc) []).reverse

/-- Model of filepath.Clean restricted to relative paths. -/
def goClean (p : String) : String :=
  let segs := goCleanSegs (splitSlash p)
  if segs.isEmpty then "." else joinSep "/" segs

/-- Model of filepath.Join: drop empty elements, join with a slash, clean; the
join of no non-empty elements is the empty string. -/
def goJoin (elems : List String) : String :=
  let ne := elems.filter (fun e => e != "")
  if ne.isEmpty then "" else goClean (joinSep "/" ne)

/-- Projection of types.ZarfComponentImport to the fields NewImportChain
reads. -/
structure ZarfComponentImport where
  Path : String
  URL : String
  ComponentName : String
deriving DecidableEq

structure ZarfOnlyCluster where
  Architecture : String
deriving DecidableEq

structure ZarfComponentOnly where
  Cluster : ZarfOnlyCluster
  Flavor : String
deriving DecidableEq

/-- Projection of types.ZarfComponent to the fields NewImportChain reads. -/
structure ZarfComponent where
  Name : String
  Import : ZarfComponentImport
  Only : ZarfComponentOnly
deriving DecidableEq

/-- Projection of types.ZarfPackage (variables and constants are carried by
the chain but never inspected by it, so they are omitted here). -/
structure ZarfPackage where
  Components : List ZarfComponent
deriving DecidableEq

/-- A node of the doubly-linked import chain, as a list element (prev and next
become list neighbours). -/
structure Node where
  component : ZarfComponent
  index : Nat
  relativeToHead : String
deriving DecidableEq

/-- `(*Node).ImportName`: the explicit `import.componentName` when given,
otherwise the component's own name. -/
def ImportName (c : ZarfComponent) : String :=
  if c.Import.ComponentName = "" then c.Name else c.Import.ComponentName

/-- `CompatibleComponent` from the composer package. -/
def CompatibleComponent (c : ZarfComponent) (arch flavor : String) : Bool :=
  let satisfiesArch := c.Only.Cluster.Architecture == "" || c.Only.Cluster.Architecture == arch
  let satisfiesFlavor := c.Only.Flavor == "" || c.Only.Flavor == flavor
  satisfiesArch && satisfiesFlavor

/-- The index recomputation after Filter: Go scans all components and keeps
the last index whose component DeepEquals the selected one (starting at 0). -/
def lastEqIndex (xs : List ZarfComponent) (c : ZarfComponent) : Nat :=
  (xs.zip (List.range xs.length)).foldl (fun acc p => if p.1 = c then p.2 else acc) 0

/-- Errors NewImportChain can return. External failures (ReadYaml, OCI fetch,
the validate.ImportDefinition callback) carry their trigger rather than the
wrapped OS error text. `fuelExhausted` is a modelling artifact standing for a
run longer than the given bound (the Go loop is unbounded). -/
inductive ImportChainError
  | archRequired
  | importValidation (msg : String)
  | remoteImportsRemote
  | remoteImportsLocal
  | circularImport (msg : String)
  | readYamlFailed (path : String)
  | fetchFailed (url : String)
  | notFoundLocal (name : String) (path : String)
  | notFoundRemote (name : String) (url : String)
  | multipleLocal (name : String) (path : String) (arch : String)
  | multipleRemote (name : String) (url : String) (arch : String)
  | fuelExhausted
deriving DecidableEq

/-- Whether the node before the current one (the list's last element) is a
remote import, mirroring `node.prev != nil && node.prev.Import.URL != ""`. -/
def prevIsRemote (done : List Node) : Bool :=
  match done.getLast? with
  | some p => p.component.Import.URL != ""
  | none => false

/-- Selecting the imported component from the upstream package: filter by
(name, arch, flavor), reject none or several matches, recompute the index. -/
def importChainSelect (pkg : ZarfPackage) (name arch flavor : String)
    (isLocal : Bool) (errPath url rel : String) :
    Except ImportChainError Node :=
  let found := pkg.Components.filter (fun c => c.Name == name && CompatibleComponent c arch flavor)
  match found with
  | [] => .error (if isLocal then .notFoundLocal name errPath else .notFoundRemote name url)
  | f :: rest =>
    if rest.isEmpty then
      .ok { component := f, index := lastEqIndex pkg.Components f, relativeToHead := rel }
    else
      .error (if isLocal then .multipleLocal name errPath arch else .multipleRemote name url arch)

/-- The loop of NewImportChain (src/unnamed/part_010 lines 115-203): `done`
holds the nodes already traversed, `node` is the current one, `history` the
raw local import paths so far. `fs` maps a path to the parsed zarf.yaml at
that path, `fetch` does the same for OCI URLs, `validateImport` stands for
validate.ImportDefinition. -/
def importChainLoop (fs : String → Option ZarfPackage)
    (fetch : String → Option ZarfPackage)
    (validateImport : ZarfComponent → Option String)
    (arch flavor : String) :
    Nat → List Node → Node → List String → Except ImportChainError (List Node)
  | 0, _, _, _ => .error .fuelExhausted
  | fuel + 1, done, node, history =>
    let isLocal := node.component.Import.Path != ""
    let isRemote := node.component.Import.URL != ""
    if !isLocal && !isRemote then .ok (done ++ [node])
    else
      match validateImport node.component with
      | some msg => .error (.importValidation msg)
      | none =>
        if prevIsRemote done && isRemote then .error .remoteImportsRemote
        else if prevIsRemote done && isLocal then .error .remoteImportsLocal
        else if isLocal then
          let history2 := history ++ [node.component.Import.Path]
          let rel := goJoin history2
          if (done ++ [node]).any (fun n => n.relativeToHead == rel) then
            .error (.circularImport (joinSep " -> " history2))
          else
            match fs (goJoin [rel, "zarf.yaml"]) with
            | none => .error (.readYamlFailed (goJoin [rel, "zarf.yaml"]))
            | some pkg =>
              match importChainSelect pkg (ImportName node.component) arch flavor true rel "" rel with
              | .error e => .error e
              | .ok newNode =>
                importChainLoop fs fetch validateImport arch flavor fuel (done ++ [node]) newNode history2
        else
          match fetch node.component.Import.URL with
          | none => .error (.fetchFailed node.component.Import.URL)
          | some pkg =>
            match importChainSelect pkg (ImportName node.component) arch flavor false ""
                node.component.Import.URL (goJoin history) with
            | .error e => .error e
            | .ok newNode =>
              importChainLoop fs fetch validateImport arch flavor fuel (done ++ [node]) newNode history

/-- `NewImportChain` (src/unnamed/part_010 lines 106-204): requires an
architecture, starts the chain at the head component with relativeToHead "."
and an empty history, and runs the loop up to `fuel` iterations. -/
def NewImportChain (fs fetch : String → Option ZarfPackage)
    (validateImport : ZarfComponent → Option String)
    (head : ZarfComponent) (index : Nat) (arch flavor : String) (fuel : Nat) :
    Except ImportChainError (List Node) :=
  if arch = "" then .error .archRequired
  else
    importChainLoop fs fetch validateImport arch flavor fuel []
      { component := head, index := index, relativeToHead := "." } []

end Composer

/-- C2 counterexample: the claimed scenario (head component A importing ./B
whose component imports ./A, with B/zarf.yaml the only zarf file) does not
produce the claimed error `circular import chain: . -> B -> A -> B`: the
joined relative paths ".", "B", "B/A" never repeat, so no cycle is detected
and NewImportChain instead fails reading B/A/zarf.yaml. Moreover a repeated
relative-to-head path is not always rejected: a local import followed by a
remote import yields two nodes with relativeToHead "B" and the chain still
succeeds, because only local imports are cycle-checked. -/
theorem newImportChain_cycle_cex :
    Composer.NewImportChain
        (fun p => if p = "B/zarf.yaml"
          then some ⟨[⟨"A", ⟨"./A", "", ""⟩, ⟨⟨""⟩, ""⟩⟩]⟩ else none)
        (fun _ => none) (fun _ => none)
        ⟨"A", ⟨"./B", "", ""⟩, ⟨⟨""⟩, ""⟩⟩ 0 "amd64" "" 10 =
      .error (.readYamlFailed "B/A/zarf.yaml") ∧
    (Composer.NewImportChain
        (fun p => if p = "B/zarf.yaml"
          then some ⟨[⟨"B", ⟨"", "oci://x", ""⟩, ⟨⟨""⟩, ""⟩⟩]⟩ else none)
        (fun u => if u = "oci://x" then some ⟨[⟨"B", ⟨"", "", ""⟩, ⟨⟨""⟩, ""⟩⟩]⟩ else none)
        (fun _ => none)
        ⟨"A", ⟨"./B", "", "B"⟩, ⟨⟨""⟩, ""⟩⟩ 0 "amd64" "" 10).map
        (List.map Composer.Node.relativeToHead) =
      .ok [".", "B", "B"] := by
  exact ⟨by decide, by decide⟩

/-- C2 amended: whenever the current node has a local import and the cleaned
join of the import-path history equals the relativeToHead of any node seen so
far, the loop of NewImportChain stops with the circular-import error, whose
message is the raw history joined by " -> " after the prefix
"detected circular import chain: "; in particular a head component importing
"." fails with that error and message ".". -/
theorem importChain_cycle_error :
    (∀ (fs fetch : String → Option Composer.ZarfPackage)
        (vi : Composer.ZarfComponent → Option String)
        (arch flavor : String) (fuel : Nat)
        (done : List Composer.Node) (node : Composer.Node) (history : List String),
      (node.component.Import.Path != "") = true →
      vi node.component = none →
      Composer.prevIsRemote done = false →
      ((done ++ [node]).any
        (fun n => n.relativeToHead ==
          Composer.goJoin (history ++ [node.component.Import.Path]))) = true →
      Composer.importChainLoop fs fetch vi arch flavor (fuel + 1) done node history =
        .error (.circularImport
          (Composer.joinSep " -> " (history ++ [node.component.Import.Path])))) ∧
    (∀ (fs fetch : String → Option Composer.ZarfPackage)
        (vi : Composer.ZarfComponent → Option String)
        (head : Composer.ZarfComponent) (i : Nat) (arch flavor : String) (fuel : Nat),
      arch ≠ "" →
      head.Import.Path = "." →
      vi head = none →
      Composer.NewImportChain fs fetch vi head i arch flavor (fuel + 1) =
        .error (.circularImport ".")) := by
  constructor
  · intro fs fetch vi arch flavor fuel done node history hlocal hvi hprev hcycle
    simp only [Composer.importChainLoop]
    simp [hlocal, hvi, hprev, hcycle]
  · intro fs fetch vi head i arch flavor fuel harch hpath hvi
    unfold Composer.NewImportChain
    rw [if_neg harch]
    simp only [Composer.importChainLoop]
    have hg : Composer.goJoin ["."] = "." := by decide
    have hj : Composer.joinSep " -> " ["."] = "." := by decide
    simp [hpath, hvi, Composer.prevIsRemote, hg, hj]

/-- A self-importing head component triggers the circular-import error, via
both parts of the cycle-detection theorem at concrete inputs. -/
theorem importChain_cycle_error_witness :
    Composer.importChainLoop (fun _ => none) (fun _ => none) (fun _ => none)
        "amd64" "" 1 [] ⟨⟨"A", ⟨".", "", ""⟩, ⟨⟨""⟩, ""⟩⟩, 0, "."⟩ [] =
      .error (.circularImport ".") ∧
    Composer.NewImportChain (fun _ => none) (fun _ => none) (fun _ => none)
        ⟨"A", ⟨".", "", ""⟩, ⟨⟨""⟩, ""⟩⟩ 0 "amd64" "" 3 =
      .error (.circularImport ".") := by
  constructor
  · have h := importChain_cycle_error.1 (fun _ => none) (fun _ => none) (fun _ => none)
      "amd64" "" 0 [] ⟨⟨"A", ⟨".", "", ""⟩, ⟨⟨""⟩, ""⟩⟩, 0, "."⟩ []
      (by decide) rfl (by decide) (by decide)
    exact h.trans (by decide)
  · exact importChain_cycle_error.2 (fun _ => none) (fun _ => none) (fun _ => none)
      ⟨"A", ⟨".", "", ""⟩, ⟨⟨""⟩, ""⟩⟩ 0 "amd64" "" 2 (by decide) rfl rfl

namespace Layout

/-- The layout file-name constants used by GenerateChecksums. -/
def ZarfYAML : String := "zarf.yaml"

def Checksums : String := "checksums.txt"

/-- Lexicographic order on character lists by code point (equal to the
byte-wise order Go's slices.Sort uses, on the ASCII strings at hand). -/
def charListLe : List Char → List Char → Bool
  | [], _ => true
  | _ :: _, [] => false
  | a :: as, b :: bs =>
    if a.toNat < b.toNat then true
    else if b.toNat < a.toNat then false
    else charListLe as bs

def strLe (a b : String) : Bool := charListLe a.data b.data

/-- Model of slices.Sort on strings: insertion sort by `strLe`. -/
def insertSorted (x : String) : List String → List String
  | [] => [x]
  | y :: ys => if strLe x y then x :: y :: ys else y :: insertSorted x ys

def sortStrings : List String → List String
  | [] => []
  | x :: xs => insertSorted x (sortStrings xs)

theorem charListLe_total : ∀ a b : List Char, charListLe a b = true ∨ charListLe b a = true := by
  intro a
  induction a with
  | nil => intro b; left; rfl
  | cons x xs ih =>
    intro b
    cases b with
    | nil => right; rfl
    | cons y ys =>
      by_cases hxy : x.toNat < y.toNat
      · left; simp [charListLe, hxy]
      · by_cases hyx : y.toNat < x.toNat
        · right; simp [charListLe, hyx]
        · rcases ih ys with h | h
          · left; simp [charListLe, hxy, hyx, h]
          · right; simp [charListLe, hyx, hxy, h]

theorem charListLe_trans :
    ∀ a b c : List Char, charListLe a b = true → charListLe b c = true →
      charListLe a c = true := by
  intro a
  induction a with
  | nil => intro b c h1 h2; rfl
  | cons x xs ih =>
    intro b c h1 h2
    cases b with
    | nil => simp [charListLe] at h1
    | cons y ys =>
      cases c with
      | nil => simp [charListLe] at h2
      | cons z zs =>
        rw [charListLe] at h1 h2 ⊢
        split at h1
        · -- x < y
          split at h2
          · -- y < z
            rw [if_pos (by omega)]
          · split at h2
            · exact absurd h2 (by simp)
            · -- y = z on code points
              rw [if_pos (by omega)]
        · split at h1
          · exact absurd h1 (by simp)
          · -- x = y on code points
            split at h2
            · rw [if_pos (by omega)]
            · split at h2
              · exact absurd h2 (by simp)
              · rw [if_neg (by omega), if_neg (by omega)]
                exact ih ys zs h1 h2

theorem strLe_total (a b : String) : strLe a b = true ∨ strLe b a = true :=
  charListLe_total a.data b.data

theorem strLe_trans {a b c : String} (h1 : strLe a b = true) (h2 : strLe b c = true) :
    strLe a c = true :=
  charListLe_trans a.data b.data c.data h1 h2

theorem mem_insertSorted {z x : String} :
    ∀ {l : List String}, z ∈ insertSorted x l → z = x ∨ z ∈ l := by
  intro l
  induction l with
  | nil =>
    intro h
    simp [insertSorted] at h
    exact Or.inl h
  | cons y ys ih =>
    intro h
    rw [insertSorted] at h
    split at h
    · rcases List.mem_cons.mp h with rfl | h
      · exact Or.inl rfl
      · exact Or.inr h
    · rcases List.mem_cons.mp h with rfl | h
      · exact Or.inr (List.mem_cons_self _ _)
      · rcases ih h with rfl | h
        · exact Or.inl rfl
        · exact Or.inr (List.mem_cons_of_mem _ h)

theorem insertSorted_perm (x : String) :
    ∀ l : List String, (insertSorted x l).Perm (x :: l) := by
  intro l
  induction l with
  | nil => rfl
  | cons y ys ih =>
    rw [insertSorted]
    split
    · rfl
    · exact (ih.cons y).trans (List.Perm.swap x y ys)

theorem sortStrings_perm : ∀ l : List String, (sortStrings l).Perm l := by
  intro l
  induction l with
  | nil => rfl
  | cons x xs ih => exact (insertSorted_perm x (sortStrings xs)).trans (ih.cons x)

theorem insertSorted_pairwise (x : String) :
    ∀ {l : List String}, l.Pairwise (fun a b => strLe a b = true) →
      (insertSorted x l).Pairwise (fun a b => strLe a b = true) := by
  intro l
  induction l with
  | nil =>
    intro _
    simp [insertSorted]
  | cons y ys ih =>
    intro h
    rw [List.pairwise_cons] at h
    rw [insertSorted]
    split
    · rename_i hxy
      rw [List.pairwise_cons]
      refine ⟨?_, List.pairwise_cons.mpr h⟩
      intro z hz
      rcases List.mem_cons.mp hz with rfl | hz
      · exact hxy
      · exact strLe_trans hxy (h.1 z hz)
    · rename_i hxy
      rw [List.pairwise_cons]
      refine ⟨?_, ih h.2⟩
      intro z hz
      rcases mem_insertSorted hz with rfl | hz
      · rcases strLe_total z y with ht | ht
        · exact absurd ht hxy
        · exact ht
      · exact h.1 z hz

theorem sortStrings_pairwise :
    ∀ l : List String, (sortStrings l).Pairwise (fun a b => strLe a b = true) := by
  intro l
  induction l with
  | nil => exact List.Pairwise.nil
  | cons x xs ih => exact insertSorted_pairwise x ih

/-- The loop of GenerateChecksums over the entries of pp.Files(): skip
zarf.yaml and checksums.txt, hash every other file, emit "<sha256> <rel>".
`fs` maps an absolute path to the bytes of the file there (none = read
error); the rel/abs entry list stands for the Go map (its iteration order is
unspecified, and the data is sorted before use). -/
def checksumLines (fs : String → Option (List Nat)) :
    List (String × String) → Except String (List String)
  | [] => .ok []
  | (rel, abs) :: rest =>
    if rel == ZarfYAML || rel == Checksums then checksumLines fs rest
    else
      match fs abs with
      | none => .error abs
      | some bytes =>
        match checksumLines fs rest with
        | .error e => .error e
        | .ok lines => .ok ((sha256HexBytes bytes ++ " " ++ rel) :: lines)

/-- Model of GenerateChecksums (src/src/pkg/layout/package.go lines 177-200):
collect the checksum lines, sort them, join with newlines plus a trailing
newline, write the file, and return the SHA256 of the written file (equal to
the SHA256 of the written content). Returns the written content together with
the returned checksum. -/
def GenerateChecksums (fs : String → Option (List Nat))
    (files : List (String × String)) : Except String (String × String) :=
  match checksumLines fs files with
  | .error e => .error e
  | .ok data =>
    let content := Composer.joinSep "\n" (sortStrings data) ++ "\n"
    .ok (content, sha256HexBytes (strBytes content))

end Layout

theorem checksumLines_ok (fs : String → Option (List Nat)) :
    ∀ (files : List (String × String)) (lines : List String),
      Layout.checksumLines fs files = .ok lines →
      lines = (files.filter
          (fun p => !(p.1 == Layout.ZarfYAML || p.1 == Layout.Checksums))).map
          (fun p => sha256HexBytes ((fs p.2).getD []) ++ " " ++ p.1) ∧
      ∀ p ∈ files.filter
          (fun p => !(p.1 == Layout.ZarfYAML || p.1 == Layout.Checksums)),
        (fs p.2).isSome = true := by
  intro files
  induction files with
  | nil =>
    intro lines h
    rw [Layout.checksumLines] at h
    injection h with h
    subst h
    exact ⟨rfl, by simp⟩
  | cons p rest ih =>
    intro lines h
    obtain ⟨rel, abs⟩ := p
    rw [Layout.checksumLines] at h
    split at h
    · rename_i hskip
      have hr := ih lines h
      constructor
      · rw [List.filter_cons]
        simp only [hskip, Bool.not_true, Bool.false_eq_true, if_false]
        exact hr.1
      · intro q hq
        rw [List.filter_cons] at hq
        simp only [hskip, Bool.not_true, Bool.false_eq_true, if_false] at hq
        exact hr.2 q hq
    · rename_i hskip
      have hskip' : ((rel == Layout.ZarfYAML || rel == Layout.Checksums)) = false := by
        revert hskip
        cases rel == Layout.ZarfYAML || rel == Layout.Checksums <;> simp
      cases hfs : fs abs with
      | none => rw [hfs] at h; exact absurd h (by simp)
      | some bytes =>
        rw [hfs] at h
        cases hrec : Layout.checksumLines fs rest with
        | error e => rw [hrec] at h; exact absurd h (by simp)
        | ok tail =>
          rw [hrec] at h
          injection h with h
          subst h
          have hr := ih tail hrec
          constructor
          · rw [List.filter_cons]
            simp only [hskip', Bool.not_false, if_true, List.map_cons]
            rw [hfs]
            exact congrArg _ hr.1
          · intro q hq
            rw [List.filter_cons] at hq
            simp only [hskip', Bool.not_false, if_true] at hq
            rcases List.mem_cons.mp hq with rfl | hq
            · show (fs abs).isSome = true
              rw [hfs]
              rfl
            · exact hr.2 q hq

theorem length_foldl_compress :
    ∀ (bs : List (List Nat)) (hs : List Nat), hs.length = 8 →
      (bs.foldl SHA256.compress hs).length = 8 := by
  intro bs
  induction bs with
  | nil => intro hs h; exact h
  | cons b bs ih => intro hs h; exact ih _ rfl

theorem length_digestWords (m : List Nat) : (SHA256.digestWords m).length = 8 := by
  unfold SHA256.digestWords
  exact length_foldl_compress _ _ rfl

theorem length_flatten_hex :
    ∀ ws : List Nat, ((ws.map SHA256.hexOfWord).flatten).length = 8 * ws.length := by
  intro ws
  induction ws with
  | nil => rfl
  | cons w ws ih =>
    simp only [List.map_cons, List.flatten_cons, List.length_append, ih, List.length_cons,
      show (SHA256.hexOfWord w).length = 8 from rfl]
    omega

theorem length_sha256HexBytes (m : List Nat) : (sha256HexBytes m).length = 64 := by
  show (((SHA256.digestWords m).map SHA256.hexOfWord).flatten).length = 64
  rw [length_flatten_hex, length_digestWords]

/-- If two "<sha256> <rel>" lines with equally long hashes are equal, the rel
parts are equal. -/
theorem line_rel_inj {s1 s2 r1 r2 : String} (hlen : s1.length = s2.length)
    (h : s1 ++ " " ++ r1 = s2 ++ " " ++ r2) : r1 = r2 := by
  have hd : (s1 ++ " ").data ++ r1.data = (s2 ++ " ").data ++ r2.data := by
    have hh := congrArg String.data h
    simpa [String.data_append] using hh
  have hlen' : s1.data.length = s2.data.length := hlen
  have hl : (s1 ++ " ").data.length = (s2 ++ " ").data.length := by
    simp [String.data_append, hlen']
  have hr : r1.data = r2.data := List.append_inj_right hd hl
  cases r1
  cases r2
  exact congrArg String.mk hr

/-- C3: for every readable layout, GenerateChecksums produces a checksums.txt
whose lines are exactly one sorted "SHA256 relpath" line per layout file
except zarf.yaml and checksums.txt (neither appears; with distinct rel names
no file appears twice), and returns the SHA256 of the file it wrote. -/
theorem generateChecksums_spec
    (fs : String → Option (List Nat)) (files : List (String × String))
    (content retSha : String)
    (h : Layout.GenerateChecksums fs files = .ok (content, retSha)) :
    ∃ lines : List String,
      content = Composer.joinSep "\n" lines ++ "\n" ∧
      retSha = sha256HexBytes (strBytes content) ∧
      lines.Pairwise (fun a b => Layout.strLe a b = true) ∧
      lines.Perm ((files.filter
          (fun p => !(p.1 == Layout.ZarfYAML || p.1 == Layout.Checksums))).map
          (fun p => sha256HexBytes ((fs p.2).getD []) ++ " " ++ p.1)) ∧
      (∀ p ∈ files.filter
          (fun p => !(p.1 == Layout.ZarfYAML || p.1 == Layout.Checksums)),
        (fs p.2).isSome = true) ∧
      ((files.map Prod.fst).Nodup → lines.Nodup) := by
  cases hcl : Layout.checksumLines fs files with
  | error e => simp [Layout.GenerateChecksums, hcl] at h
  | ok data =>
    obtain ⟨hd1, hd2⟩ := checksumLines_ok fs files data hcl
    subst hd1
    simp only [Layout.GenerateChecksums, hcl, Except.ok.injEq, Prod.mk.injEq] at h
    obtain ⟨hc, hs⟩ := h
    refine ⟨Layout.sortStrings _, hc.symm, ?_, Layout.sortStrings_pairwise _,
      Layout.sortStrings_perm _, hd2, ?_⟩
    · rw [← hc]
      exact hs.symm
    · intro hk
      rw [(Layout.sortStrings_perm _).nodup_iff]
      have hsub : List.Sublist
          ((files.filter
            (fun p => !(p.1 == Layout.ZarfYAML || p.1 == Layout.Checksums))).map Prod.fst)
          (files.map Prod.fst) :=
        (List.filter_sublist files).map Prod.fst
      have hkeys := List.Nodup.sublist hsub hk
      have hinj := List.inj_on_of_nodup_map hkeys
      refine List.Nodup.map_on ?_ (hkeys.of_map)
      intro x hx y hy hxy
      exact hinj hx hy
        (line_rel_inj (by rw [length_sha256HexBytes, length_sha256HexBytes]) hxy)

def checksumFiles0 : List (String × String) :=
  [("zarf.yaml", "zarf.yaml"), ("b.txt", "b.txt"), ("a.txt", "a.txt"),
   ("checksums.txt", "checksums.txt")]

def checksumFs0 : String → Option (List Nat) := fun p =>
  if p = "a.txt" then some (strBytes "hello")
  else if p = "b.txt" then some (strBytes "world") else none

def checksumContent0 : String :=
  "2cf24dba5fb0a30e26e83b2ac5b9e29e1b161e5c1fa7425e73043362938b9824 a.txt\n486ea46224d1bb4fb680f34f7c9ad96a8f24ec88be73ea8e5a6c65260e9cb8a7 b.txt\n"

def checksumSha0 : String :=
  "f5a2cd5e209400cc079225111ca7b1bca2826b9fd63263f455350b6fb5e146a7"

/-- A concrete layout with files zarf.yaml, a.txt ("hello"), b.txt ("world")
and checksums.txt: the generated checksum file holds one sorted line per
included file and the returned SHA is the SHA256 of that content. -/
theorem generateChecksums_spec_witness :
    ∃ lines : List String,
      checksumContent0 = Composer.joinSep "\n" lines ++ "\n" ∧
      checksumSha0 = sha256HexBytes (strBytes checksumContent0) ∧
      lines.Pairwise (fun a b => Layout.strLe a b = true) ∧
      lines.Perm ((checksumFiles0.filter
          (fun p => !(p.1 == Layout.ZarfYAML || p.1 == Layout.Checksums))).map
          (fun p => sha256HexBytes ((checksumFs0 p.2).getD []) ++ " " ++ p.1)) ∧
      (∀ p ∈ checksumFiles0.filter
          (fun p => !(p.1 == Layout.ZarfYAML || p.1 == Layout.Checksums)),
        (checksumFs0 p.2).isSome = true) ∧
      ((checksumFiles0.map Prod.fst).Nodup → lines.Nodup) :=
  generateChecksums_spec checksumFs0 checksumFiles0 checksumContent0 checksumSha0
    (by decide)

theorem strBytes_append (a b : String) : strBytes (a ++ b) = strBytes a ++ strBytes b := by
  unfold strBytes
  rw [String.data_append, List.map_append, List.flatten_append]

theorem utf8_single {n : Nat} (h : n < 128) : utf8BytesOfCode n = [n] := by
  unfold utf8BytesOfCode
  rw [if_pos h]

theorem length_flatten_utf8 :
    ∀ l : List Char, (∀ c ∈ l, c.toNat < 128) →
      ((l.map (fun c => utf8BytesOfCode c.toNat)).flatten).length = l.length := by
  intro l
  induction l with
  | nil => intro _; rfl
  | cons c cs ih =>
    intro h
    rw [List.map_cons, List.flatten_cons, List.length_append,
      utf8_single (h c (List.mem_cons_self _ _)),
      ih (fun d hd => h d (List.mem_cons_of_mem _ hd))]
    simp only [List.length_cons, List.length_nil]
    omega

theorem length_strBytes_ascii (s : String) (h : ∀ c ∈ s.data, c.toNat < 128) :
    (strBytes s).length = s.length :=
  length_flatten_utf8 s.data h

theorem hexDigit_toNat_lt {n : Nat} (h : n < 16) : (SHA256.hexDigit n).toNat < 128 := by
  interval_cases n <;> decide

theorem sha256Hex_chars_ascii (m : List Nat) :
    ∀ c ∈ (sha256HexBytes m).data, c.toNat < 128 := by
  intro c hc
  have hc' : c ∈ ((SHA256.digestWords m).map SHA256.hexOfWord).flatten := hc
  obtain ⟨l, hl, hcl⟩ := List.mem_flatten.mp hc'
  obtain ⟨w, -, rfl⟩ := List.mem_map.mp hl
  simp only [SHA256.hexOfWord, List.mem_cons, List.not_mem_nil, or_false] at hcl
  rcases hcl with rfl | rfl | rfl | rfl | rfl | rfl | rfl | rfl <;>
    exact hexDigit_toNat_lt (Nat.mod_lt _ (by decide))

theorem flatten_chunksOfAux (n : Nat) (hn : 0 < n) :
    ∀ (fuel : Nat) (xs : List Nat), xs.length ≤ fuel →
      (chunksOfAux n fuel xs).flatten = xs := by
  intro fuel
  induction fuel with
  | zero =>
    intro xs h
    cases xs with
    | nil => rfl
    | cons x rest => simp at h
  | succ m ih =>
    intro xs h
    cases xs with
    | nil => rfl
    | cons x rest =>
      rw [chunksOfAux, List.flatten_cons]
      rw [ih ((x :: rest).drop n)
        (by simp only [List.length_drop, List.length_cons] at h ⊢; omega)]
      exact List.take_append_drop n (x :: rest)

theorem flatten_chunksOf {n : Nat} (hn : 0 < n) (xs : List Nat) :
    (chunksOf n xs).flatten = xs := by
  rw [chunksOf, if_neg (by omega)]
  exact flatten_chunksOfAux n hn xs.length xs le_rfl

theorem chunksOf_replicate_one_over (n : Nat) (hn : 0 < n) (a : Nat) :
    chunksOf n (List.replicate (n + 1) a) = [List.replicate n a, [a]] := by
  rw [chunksOf, if_neg (by omega), List.length_replicate, List.replicate_succ,
    chunksOfAux]
  have ht : (a :: List.replicate n a).take n = List.replicate n a := by
    rw [← List.replicate_succ, List.take_replicate, min_eq_left (by omega)]
  have hd : (a :: List.replicate n a).drop n = [a] := by
    rw [← List.replicate_succ, List.drop_replicate,
      show n + 1 - n = 1 from by omega, List.replicate_one]
  rw [ht, hd]
  obtain ⟨m, rfl⟩ : ∃ m, n = m + 1 := ⟨n - 1, by omega⟩
  rw [chunksOfAux]
  have h2 : (chunksOfAux (m + 1) m ([a].drop (m + 1))) = [] := by
    rw [List.drop_of_length_le (by simp)]
    cases m <;> rfl
  rw [h2, List.take_of_length_le (by simp)]

namespace Layout

/-- json.Marshal of types.ZarfPartialPackageData: fields are emitted in
struct order Sha256Sum, Bytes, Count with tags sha256Sum, bytes, count. -/
def partialPackageJSON (sha : String) (byteCount count : Nat) : String :=
  "\x7b\"sha256Sum\":\"" ++ sha ++ "\",\"bytes\":" ++ natToString byteCount ++
    ",\"count\":" ++ natToString count ++ "\x7d"

/-- Modelled from the spec: utils.SplitFile (not under src/) reads the file
and splits it into chunks of at most chunkSize bytes in order, returning the
chunks together with the SHA256 hex digest of the whole file. -/
def SplitFile (fileBytes : List Nat) (chunkSize : Nat) :
    List (List Nat) × String :=
  (chunksOf chunkSize fileBytes, sha256HexBytes fileBytes)

/-- Zero-padded three-digit part index, as %03d renders indices below 1000. -/
def part3 (n : Nat) : String :=
  if n < 10 then "00" ++ natToString n
  else if n < 100 then "0" ++ natToString n
  else natToString n

/-- Model of the splitting half of ArchivePackage
(src/src/pkg/layout/package.go lines 202-263; packager archivePackage in
publish.go is line-for-line the same): the tar bytes stand for the archive
written by archiver.Archive, and the result lists the files written as
(name, bytes) pairs - none when no split happens. The JSON header is written
on its own as .part000 and the raw chunks follow from .part001 on. -/
def ArchivePackage (destinationTarball : String) (tarBytes : List Nat)
    (maxPackageSizeMB : Nat) :
    Except String (Option (List (String × List Nat))) :=
  let chunkSize := maxPackageSizeMB * 1000 * 1000
  if 0 < maxPackageSizeMB ∧ chunkSize < tarBytes.length then
    let split := SplitFile tarBytes chunkSize
    if 999 < split.1.length then
      .error "unable to split the package archive into multiple files: must be less than 1,000 files"
    else
      let jsonData :=
        strBytes (partialPackageJSON split.2 tarBytes.length split.1.length)
      .ok (some ((destinationTarball ++ ".part" ++ part3 0, jsonData) ::
        ((List.range split.1.length).zip split.1).map
          (fun p => (destinationTarball ++ ".part" ++ part3 (p.1 + 1), p.2))))
  else .ok none

end Layout

/-- What ArchivePackage writes when it splits: the bare JSON header as
part000 followed by the raw chunks as part001 onward. -/
theorem archivePackage_split_eq (dest : String) (tar : List Nat) (maxMB : Nat)
    (hpos : 0 < maxMB) (hbig : maxMB * 1000 * 1000 < tar.length)
    (hcount : ¬ 999 < (chunksOf (maxMB * 1000 * 1000) tar).length) :
    Layout.ArchivePackage dest tar maxMB = .ok (some
      ((dest ++ ".part" ++ Layout.part3 0,
        strBytes (Layout.partialPackageJSON (sha256HexBytes tar) tar.length
          (chunksOf (maxMB * 1000 * 1000) tar).length)) ::
       ((List.range (chunksOf (maxMB * 1000 * 1000) tar).length).zip
          (chunksOf (maxMB * 1000 * 1000) tar)).map
         (fun p => (dest ++ ".part" ++ Layout.part3 (p.1 + 1), p.2)))) := by
  simp only [Layout.ArchivePackage, Layout.SplitFile]
  rw [if_pos ⟨hpos, hbig⟩, if_neg hcount]

/-- C6 counterexample: splitting a 1000001-byte archive with
maxPackageSizeMB = 1 writes part000 holding ONLY the 106-byte JSON header -
not a 512-byte-aligned header followed by data as the claim says. The raw
chunks start at part001. -/
theorem archivePackage_part000_cex :
    ∃ content : List Nat,
      Layout.ArchivePackage "pkg.tar" (List.replicate 1000001 0) 1 = .ok (some
        [("pkg.tar.part000", content),
         ("pkg.tar.part001", List.replicate 1000000 0),
         ("pkg.tar.part002", [0])]) ∧
      content = strBytes (Layout.partialPackageJSON
        (sha256HexBytes (List.replicate 1000001 0)) 1000001 2) ∧
      content.length = 106 ∧
      content.length < 512 := by
  have e1 : (1 : Nat) * 1000 * 1000 = 1000000 := by norm_num
  have hch : chunksOf 1000000 (List.replicate 1000001 (0:Nat)) =
      [List.replicate 1000000 0, [0]] :=
    chunksOf_replicate_one_over 1000000 (by decide) 0
  have hlen : (strBytes (Layout.partialPackageJSON
      (sha256HexBytes (List.replicate 1000001 0)) 1000001 2)).length = 106 := by
    simp only [Layout.partialPackageJSON, strBytes_append, List.length_append]
    rw [length_strBytes_ascii _ (sha256Hex_chars_ascii _), length_sha256HexBytes]
    decide
  have h := archivePackage_split_eq "pkg.tar" (List.replicate 1000001 0) 1
    (by decide)
    (by rw [List.length_replicate]; norm_num)
    (by rw [e1, hch]; decide)
  rw [e1, hch, List.length_replicate] at h
  refine ⟨strBytes (Layout.partialPackageJSON
      (sha256HexBytes (List.replicate 1000001 0)) 1000001 2), ?_, rfl, hlen,
      by rw [hlen]; decide⟩
  exact h.trans (by rfl)

/-- C6 amended: when a positive maxPackageSizeMB is smaller than the archive,
ArchivePackage writes count+1 files named .part000, .part001, ...: part000 is
the bare JSON header (sha256Sum, bytes, count in that order - no 512-byte
alignment and no data after it), part001 onward are the raw chunks in order,
their concatenation is the tar, and the header records the SHA256 of exactly
that concatenation. -/
theorem archivePackage_split_spec (dest : String) (tar : List Nat) (maxMB : Nat)
    (hpos : 0 < maxMB) (hbig : maxMB * 1000 * 1000 < tar.length)
    (hcount : (chunksOf (maxMB * 1000 * 1000) tar).length ≤ 999) :
    ∃ files : List (String × List Nat),
      Layout.ArchivePackage dest tar maxMB = .ok (some files) ∧
      files.length = (chunksOf (maxMB * 1000 * 1000) tar).length + 1 ∧
      (∀ i, (hi : i < files.length) →
        (files.get ⟨i, hi⟩).1 = dest ++ ".part" ++ Layout.part3 i) ∧
      ((files.drop 1).map Prod.snd).flatten = tar ∧
      files.head? = some (dest ++ ".part" ++ Layout.part3 0,
        strBytes (Layout.partialPackageJSON
          (sha256HexBytes (((files.drop 1).map Prod.snd).flatten))
          tar.length (files.length - 1))) := by
  have h := archivePackage_split_eq dest tar maxMB hpos hbig (by omega)
  refine ⟨_, h, ?_, ?_, ?_, ?_⟩
  · simp [List.length_map, List.length_zip, List.length_range]
  · intro i hi
    cases i with
    | zero => rfl
    | succ j =>
      simp only [List.length_cons, List.length_map, List.length_zip,
        List.length_range, Nat.min_self, Nat.succ_lt_succ_iff] at hi
      simp only [List.get_eq_getElem, List.getElem_cons_succ, List.getElem_map,
        List.getElem_zip, List.getElem_range]
  · simp only [List.drop_one, List.tail_cons, List.map_map]
    have hm : ((List.range (chunksOf (maxMB * 1000 * 1000) tar).length).zip
        (chunksOf (maxMB * 1000 * 1000) tar)).map
        (Prod.snd ∘ fun p => (dest ++ ".part" ++ Layout.part3 (p.1 + 1), p.2)) =
        chunksOf (maxMB * 1000 * 1000) tar := by
      exact List.map_snd_zip _ _ (by simp)
    rw [hm]
    exact flatten_chunksOf (by omega) tar
  · simp only [List.drop_one, List.tail_cons, List.map_map, List.length_cons,
      List.length_map, List.length_zip, List.length_range, Nat.min_self,
      Nat.add_sub_cancel, List.head?_cons, Option.some.injEq]
    have hm : ((List.range (chunksOf (maxMB * 1000 * 1000) tar).length).zip
        (chunksOf (maxMB * 1000 * 1000) tar)).map
        (Prod.snd ∘ fun p => (dest ++ ".part" ++ Layout.part3 (p.1 + 1), p.2)) =
        chunksOf (maxMB * 1000 * 1000) tar := by
      exact List.map_snd_zip _ _ (by simp)
    rw [hm, flatten_chunksOf (by omega) tar]

/-- Splitting a concrete 1000001-byte archive at maxPackageSizeMB = 1
produces 3 files (header plus two chunks) satisfying the split
characterization. -/
theorem archivePackage_split_spec_witness :
    ∃ files : List (String × List Nat),
      Layout.ArchivePackage "pkg.tar" (List.replicate 1000001 0) 1 =
        .ok (some files) ∧
      files.length = (chunksOf (1 * 1000 * 1000) (List.replicate 1000001 0)).length + 1 ∧
      (∀ i, (hi : i < files.length) →
        (files.get ⟨i, hi⟩).1 = "pkg.tar" ++ ".part" ++ Layout.part3 i) ∧
      ((files.drop 1).map Prod.snd).flatten = List.replicate 1000001 0 ∧
      files.head? = some ("pkg.tar" ++ ".part" ++ Layout.part3 0,
        strBytes (Layout.partialPackageJSON
          (sha256HexBytes (((files.drop 1).map Prod.snd).flatten))
          (List.replicate (1000001 : Nat) (0 : Nat)).length (files.length - 1))) :=
  archivePackage_split_spec "pkg.tar" (List.replicate 1000001 0) 1
    (by decide)
    (by rw [List.length_replicate]; norm_num)
    (by rw [show (1 : Nat) * 1000 * 1000 = 1000000 from by norm_num,
          chunksOf_replicate_one_over 1000000 (by decide) 0]
        decide)
